import Mathlib

/-!
Verification of the turntable-control core of the `lems-anechoic` repository.

The development shallowly embeds, in Lean 4, the parts of the source that the
claims under scrutiny are about:

* `src/msu_anechoic/_turn_table_elevation_regime.py` — the elevation-regime
  catalog and its lookup/traversal operations (`elevation_regimes`,
  `find_best_regime`, `find_next_regime`);
* `src/msu_anechoic/turn_table.py` — the telemetry parser (`parse_az_el` and
  the strict `azimuth_elevation_regex`) and the `Turntable` controller
  (validators, `send_set_command`, `move_to` and its helpers), modelled as a
  state-passing step machine with an explicit telemetry oracle, an explicit
  trace of frames written to the serial transport, and fuel for the polling
  loops;
* `src/msu_anechoic/util/coordinate.py` — the additive neutral-elevation
  structure of the `Coordinate` constructors, both over exact rationals and
  over a round-to-nearest-even model of IEEE binary64 addition.

Python floats are modelled as rationals; where a claim is specifically about
IEEE-754 rounding, a binary64 rounding function `fl64` is applied to each
arithmetic operation exactly as the source performs it.
-/

namespace Anechoic

/-- An azimuth/elevation pair, as in `msu_anechoic.AzEl` (a named tuple of two
floats; here the two angles are rationals, in degrees). -/
structure AzEl where
  azimuth : ℚ
  elevation : ℚ
  deriving DecidableEq

/-! ## Elevation regime catalog

Embedding of `src/msu_anechoic/_turn_table_elevation_regime.py`. -/

/-- One elevation regime of the turn table: a window
`[center_angle - allowable_offset, center_angle + allowable_offset]` of
elevations addressable without re-homing (class `TurnTableElevationRegime`). -/
structure TurnTableElevationRegime where
  center_angle : ℚ
  allowable_offset : ℚ
  waypoint_offset : ℚ
  deriving DecidableEq

namespace TurnTableElevationRegime

/-- `TurnTableElevationRegime.is_in_allowable_range`: membership in the
window, `abs (angle - center_angle) <= allowable_offset`.  The Python
`angle in regime` test (`__contains__`) delegates to this. -/
def is_in_allowable_range (self : TurnTableElevationRegime) (angle : ℚ) : Bool :=
  |angle - self.center_angle| ≤ self.allowable_offset

end TurnTableElevationRegime

/-- The fixed catalog `elevation_regimes`: centers −75°…75° spaced 25° apart,
each with `allowable_offset = 29` and `waypoint_offset = 13`. -/
def elevation_regimes : List TurnTableElevationRegime :=
  [-75, -50, -25, 0, 25, 50, 75].map fun angle =>
    { center_angle := angle, allowable_offset := 29, waypoint_offset := 13 }

/-- Python list indexing `l[i]` for `i : ℤ`: a negative index wraps once by
adding `len(l)`; an index still out of range raises `IndexError`, modelled as
`none`. -/
def pyIndex {α : Type} (l : List α) (i : ℤ) : Option α :=
  if i < 0 then
    if 0 ≤ i + l.length then l.get? (i + (l.length : ℤ)).toNat else none
  else
    l.get? i.toNat

/-- Python `list.index(x)`: the first position whose element compares equal to
`x`.  `TurnTableElevationRegime.__eq__` compares only `center_angle`, so the
search uses center equality; `none` models the `ValueError` on a missing
element. -/
def pyListIndex (l : List TurnTableElevationRegime) (r : TurnTableElevationRegime) : Option ℕ :=
  l.findIdx? fun x => x.center_angle = r.center_angle

/-- Python `min(iterable, key=key)` on a nonempty list: the first element with
minimal key (ties keep the earlier element, as CPython does). -/
def pyMinBy {α : Type} (key : α → ℚ) : List α → Option α
  | [] => none
  | x :: xs => some (xs.foldl (fun acc y => if key y < key acc then y else acc) x)

/-- `find_best_regime(angle)`: the catalog regime whose center is closest to
`angle`; the `ValueError` raised when `angle` is outside the winner's window is
modelled as `none`. -/
def find_best_regime (angle : ℚ) : Option TurnTableElevationRegime :=
  match pyMinBy (fun regime => |angle - regime.center_angle|) elevation_regimes with
  | none => none
  | some best_fit =>
      if best_fit.is_in_allowable_range angle then some best_fit else none

/-- `find_next_regime(destination_angle, current_regime)`: the current regime
if it already contains the destination, otherwise the catalog neighbour
(index ± 1, with Python indexing semantics) in the direction of the
destination.  `none` models the `ValueError`/`IndexError` escape paths. -/
def find_next_regime (destination_angle : ℚ)
    (current_regime : TurnTableElevationRegime) : Option TurnTableElevationRegime :=
  if current_regime.is_in_allowable_range destination_angle then some current_regime
  else
    match pyListIndex elevation_regimes current_regime with
    | none => none
    | some current_regime_index =>
        if destination_angle > current_regime.center_angle then
          pyIndex elevation_regimes ((current_regime_index : ℤ) + 1)
        else
          pyIndex elevation_regimes ((current_regime_index : ℤ) - 1)

/-- The chain of regimes visited when a caller repeatedly replaces the current
regime by `find_next_regime(destination, current)` (the loop of
`Turntable.move_to`), with fuel bounding the number of hops.  The result is
`some` exactly when a regime containing the destination is reached within the
fuel and no indexing error occurs; the returned list is the full visited chain,
starting at the given regime and ending at the containing one. -/
def regime_chain (destination_angle : ℚ) :
    ℕ → TurnTableElevationRegime → Option (List TurnTableElevationRegime)
  | 0, r =>
      if r.is_in_allowable_range destination_angle then some [r] else none
  | n + 1, r =>
      if r.is_in_allowable_range destination_angle then some [r]
      else
        match find_next_regime destination_angle r with
        | none => none
        | some r2 => (regime_chain destination_angle n r2).map fun l => r :: l

/-- The catalog entry centered at −75°. -/
def R0 : TurnTableElevationRegime := ⟨-75, 29, 13⟩

/-- The catalog entry centered at −50°. -/
def R1 : TurnTableElevationRegime := ⟨-50, 29, 13⟩

/-- The catalog entry centered at −25°. -/
def R2 : TurnTableElevationRegime := ⟨-25, 29, 13⟩

/-- The catalog entry centered at 0°. -/
def R3 : TurnTableElevationRegime := ⟨0, 29, 13⟩

/-- The catalog entry centered at 25°. -/
def R4 : TurnTableElevationRegime := ⟨25, 29, 13⟩

/-- The catalog entry centered at 50°. -/
def R5 : TurnTableElevationRegime := ⟨50, 29, 13⟩

/-- The catalog entry centered at 75°. -/
def R6 : TurnTableElevationRegime := ⟨75, 29, 13⟩

theorem catalog_eq : elevation_regimes = [R0, R1, R2, R3, R4, R5, R6] := rfl

/-- A window-membership test fails when the angle lies strictly outside the
window. -/
theorem not_in_range {c off w d : ℚ} (h : d < c - off ∨ c + off < d) :
    TurnTableElevationRegime.is_in_allowable_range ⟨c, off, w⟩ d = false := by
  simp only [TurnTableElevationRegime.is_in_allowable_range, decide_eq_false_iff_not, abs_le,
    not_and, not_le]
  intro h1
  rcases h with h | h <;> linarith

/-- A window-membership test succeeds when the angle lies inside the window. -/
theorem in_range {c off w d : ℚ} (h1 : c - off ≤ d) (h2 : d ≤ c + off) :
    TurnTableElevationRegime.is_in_allowable_range ⟨c, off, w⟩ d = true := by
  simp only [TurnTableElevationRegime.is_in_allowable_range, decide_eq_true_eq, abs_le]
  constructor <;> linarith

/-- The fold inside `pyMinBy` returns the accumulator or an element of the
list. -/
theorem foldlMin_eq_or_mem {α : Type} (key : α → ℚ) :
    ∀ (l : List α) (acc : α),
      l.foldl (fun a y => if key y < key a then y else a) acc = acc ∨
      l.foldl (fun a y => if key y < key a then y else a) acc ∈ l := by
  intro l
  induction l with
  | nil => intro acc; exact Or.inl rfl
  | cons y ys ih =>
      intro acc
      simp only [List.foldl_cons]
      rcases ih (if key y < key acc then y else acc) with h | h
      · by_cases hy : key y < key acc
        · right; rw [h, if_pos hy]; exact List.mem_cons_self _ _
        · left; rw [h, if_neg hy]
      · right; exact List.mem_cons_of_mem _ h

/-- The fold inside `pyMinBy` minimizes the key over the accumulator and the
list. -/
theorem foldlMin_le {α : Type} (key : α → ℚ) :
    ∀ (l : List α) (acc : α),
      key (l.foldl (fun a y => if key y < key a then y else a) acc) ≤ key acc ∧
      ∀ y ∈ l, key (l.foldl (fun a y => if key y < key a then y else a) acc) ≤ key y := by
  intro l
  induction l with
  | nil => intro acc; exact ⟨le_refl _, by simp⟩
  | cons z zs ih =>
      intro acc
      simp only [List.foldl_cons]
      obtain ⟨h1, h2⟩ := ih (if key z < key acc then z else acc)
      constructor
      · refine le_trans h1 ?_
        by_cases hz : key z < key acc
        · rw [if_pos hz]; exact le_of_lt hz
        · rw [if_neg hz]
      · intro y hy
        rcases List.mem_cons.mp hy with rfl | hy2
        · refine le_trans h1 ?_
          by_cases hz : key y < key acc
          · rw [if_pos hz]
          · rw [if_neg hz]; exact le_of_not_lt hz
        · exact h2 y hy2

/-- Every catalog regime has `allowable_offset = 29`. -/
theorem catalog_offset : ∀ r ∈ elevation_regimes, r.allowable_offset = 29 := by decide

/-- `pyMinBy` returns an element of the list achieving the minimal key. -/
theorem pyMinBy_spec {α : Type} (key : α → ℚ) (l : List α) (m : α)
    (h : pyMinBy key l = some m) : m ∈ l ∧ ∀ y ∈ l, key m ≤ key y := by
  match l with
  | [] => exact absurd h (by simp [pyMinBy])
  | x :: xs =>
      have hm : m = xs.foldl (fun acc y => if key y < key acc then y else acc) x := by
        simpa [pyMinBy] using h.symm
      constructor
      · rcases foldlMin_eq_or_mem key xs x with h2 | h2
        · rw [hm, h2]; exact List.mem_cons_self _ _
        · rw [hm]; exact List.mem_cons_of_mem _ h2
      · intro y hy
        rcases List.mem_cons.mp hy with rfl | hy2
        · rw [hm]; exact (foldlMin_le key xs y).1
        · rw [hm]; exact (foldlMin_le key xs x).2 y hy2

/-- Every angle in the mechanical elevation range [−90, 45] lies in the window
of some catalog regime. -/
theorem catalog_coverage {a : ℚ} (h1 : -90 ≤ a) (h2 : a ≤ 45) :
    ∃ r ∈ elevation_regimes, r.is_in_allowable_range a = true := by
  rcases le_or_lt a (-46) with hA | hA
  · exact ⟨R0, by decide, in_range (by norm_num; linarith) (by norm_num; linarith)⟩
  rcases le_or_lt a (-21) with hB | hB
  · exact ⟨R1, by decide, in_range (by norm_num; linarith) (by norm_num; linarith)⟩
  rcases le_or_lt a 4 with hC | hC
  · exact ⟨R2, by decide, in_range (by norm_num; linarith) (by norm_num; linarith)⟩
  rcases le_or_lt a 29 with hD | hD
  · exact ⟨R3, by decide, in_range (by norm_num; linarith) (by norm_num; linarith)⟩
  · exact ⟨R4, by decide, in_range (by norm_num; linarith) (by norm_num; linarith)⟩

/-- Claim C7: for every angle in [−90, 45] degrees, `find_best_regime`
succeeds, returning a catalog regime whose center is closest to the angle and
whose window contains the angle; and `find_best_regime` fails (raises,
modelled as `none`) exactly when the angle lies outside every catalog
regime's window. -/
theorem find_best_regime_spec (a : ℚ) :
    ((-90 ≤ a ∧ a ≤ 45) → ∃ r, find_best_regime a = some r ∧
        r.is_in_allowable_range a = true ∧ r ∈ elevation_regimes ∧
        ∀ r2 ∈ elevation_regimes, |a - r.center_angle| ≤ |a - r2.center_angle|) ∧
    (find_best_regime a = none ↔
        ∀ r ∈ elevation_regimes, r.is_in_allowable_range a = false) := by
  obtain ⟨m, hpm⟩ : ∃ m,
      pyMinBy (fun regime => |a - regime.center_angle|) elevation_regimes = some m := by
    rw [catalog_eq]; exact ⟨_, rfl⟩
  obtain ⟨hmem, hle⟩ := pyMinBy_spec _ _ _ hpm
  have hmin : find_best_regime a =
      if m.is_in_allowable_range a then some m else none := by
    simp only [find_best_regime, hpm]
  constructor
  · rintro ⟨h1, h2⟩
    obtain ⟨r, hrmem, hrin⟩ := catalog_coverage h1 h2
    have hin : m.is_in_allowable_range a = true := by
      have h29 : m.allowable_offset = 29 := catalog_offset m hmem
      have hr29 : r.allowable_offset = 29 := catalog_offset r hrmem
      have hrabs : |a - r.center_angle| ≤ 29 := by
        simpa [TurnTableElevationRegime.is_in_allowable_range, hr29] using hrin
      simp only [TurnTableElevationRegime.is_in_allowable_range, h29, decide_eq_true_eq]
      exact le_trans (hle r hrmem) hrabs
    exact ⟨m, by rw [hmin, if_pos hin], hin, hmem, hle⟩
  · constructor
    · intro hnone r hr
      have hmf : m.is_in_allowable_range a = false := by
        by_contra hcon
        rw [hmin, if_pos (by revert hcon; cases m.is_in_allowable_range a <;> simp)] at hnone
        exact Option.noConfusion hnone
      have h29 : m.allowable_offset = 29 := catalog_offset m hmem
      have hr29 : r.allowable_offset = 29 := catalog_offset r hr
      have habs : ¬ |a - m.center_angle| ≤ 29 := by
        simpa [TurnTableElevationRegime.is_in_allowable_range, h29] using hmf
      simp only [TurnTableElevationRegime.is_in_allowable_range, hr29,
        decide_eq_false_iff_not]
      intro hcon
      exact habs (le_trans (hle r hr) hcon)
    · intro hall
      rw [hmin, if_neg (by rw [hall m hmem]; simp)]

/-- `pyListIndex` positions of the catalog regimes. -/
theorem pyListIndex_R0 : pyListIndex elevation_regimes R0 = some 0 := by decide

theorem pyListIndex_R1 : pyListIndex elevation_regimes R1 = some 1 := by decide

theorem pyListIndex_R2 : pyListIndex elevation_regimes R2 = some 2 := by decide

theorem pyListIndex_R3 : pyListIndex elevation_regimes R3 = some 3 := by decide

theorem pyListIndex_R4 : pyListIndex elevation_regimes R4 = some 4 := by decide

theorem pyListIndex_R5 : pyListIndex elevation_regimes R5 = some 5 := by decide

theorem pyListIndex_R6 : pyListIndex elevation_regimes R6 = some 6 := by decide

/-- Projection form of `not_in_range`. -/
theorem not_in_range' {r : TurnTableElevationRegime} {d : ℚ}
    (h : d < r.center_angle - r.allowable_offset ∨ r.center_angle + r.allowable_offset < d) :
    r.is_in_allowable_range d = false := by
  simp only [TurnTableElevationRegime.is_in_allowable_range, decide_eq_false_iff_not, abs_le,
    not_and, not_le]
  intro h1
  rcases h with h | h <;> linarith

/-- Projection form of `in_range`. -/
theorem in_range' {r : TurnTableElevationRegime} {d : ℚ}
    (h1 : r.center_angle - r.allowable_offset ≤ d) (h2 : d ≤ r.center_angle + r.allowable_offset) :
    r.is_in_allowable_range d = true := by
  simp only [TurnTableElevationRegime.is_in_allowable_range, decide_eq_true_eq, abs_le]
  constructor <;> linarith

/-- One upward hop of `find_next_regime` (generic over the catalog data). -/
theorem find_next_up {d : ℚ} {r r2 : TurnTableElevationRegime} {i : ℕ}
    (h : r.is_in_allowable_range d = false)
    (hidx : pyListIndex elevation_regimes r = some i)
    (hgt : r.center_angle < d)
    (hnext : pyIndex elevation_regimes ((i : ℤ) + 1) = some r2) :
    find_next_regime d r = some r2 := by
  simp only [find_next_regime, h, Bool.false_eq_true, if_false, hidx]
  rw [if_pos hgt]
  exact hnext

/-- One downward hop of `find_next_regime` (generic over the catalog data). -/
theorem find_next_down {d : ℚ} {r r2 : TurnTableElevationRegime} {i : ℕ}
    (h : r.is_in_allowable_range d = false)
    (hidx : pyListIndex elevation_regimes r = some i)
    (hle : d ≤ r.center_angle)
    (hnext : pyIndex elevation_regimes ((i : ℤ) - 1) = some r2) :
    find_next_regime d r = some r2 := by
  simp only [find_next_regime, h, Bool.false_eq_true, if_false, hidx]
  rw [if_neg (by push_neg; exact hle)]
  exact hnext

theorem next_R0_up {d : ℚ} (h1 : -46 < d) : find_next_regime d R0 = some R1 :=
  find_next_up (not_in_range' (Or.inr (by norm_num [R0]; linarith)))
    pyListIndex_R0 (by norm_num [R0]; linarith) (by decide)

theorem next_R1_up {d : ℚ} (h1 : -21 < d) : find_next_regime d R1 = some R2 :=
  find_next_up (not_in_range' (Or.inr (by norm_num [R1]; linarith)))
    pyListIndex_R1 (by norm_num [R1]; linarith) (by decide)

theorem next_R2_up {d : ℚ} (h1 : 4 < d) : find_next_regime d R2 = some R3 :=
  find_next_up (not_in_range' (Or.inr (by norm_num [R2]; linarith)))
    pyListIndex_R2 (by norm_num [R2]; linarith) (by decide)

theorem next_R3_up {d : ℚ} (h1 : 29 < d) : find_next_regime d R3 = some R4 :=
  find_next_up (not_in_range' (Or.inr (by norm_num [R3]; linarith)))
    pyListIndex_R3 (by norm_num [R3]; linarith) (by decide)

theorem next_R4_up {d : ℚ} (h1 : 54 < d) : find_next_regime d R4 = some R5 :=
  find_next_up (not_in_range' (Or.inr (by norm_num [R4]; linarith)))
    pyListIndex_R4 (by norm_num [R4]; linarith) (by decide)

theorem next_R1_down {d : ℚ} (h1 : d < -79) : find_next_regime d R1 = some R0 :=
  find_next_down (not_in_range' (Or.inl (by norm_num [R1]; linarith)))
    pyListIndex_R1 (by norm_num [R1]; linarith) (by decide)

theorem next_R2_down {d : ℚ} (h1 : d < -54) : find_next_regime d R2 = some R1 :=
  find_next_down (not_in_range' (Or.inl (by norm_num [R2]; linarith)))
    pyListIndex_R2 (by norm_num [R2]; linarith) (by decide)

theorem next_R3_down {d : ℚ} (h1 : d < -29) : find_next_regime d R3 = some R2 :=
  find_next_down (not_in_range' (Or.inl (by norm_num [R3]; linarith)))
    pyListIndex_R3 (by norm_num [R3]; linarith) (by decide)

theorem next_R4_down {d : ℚ} (h1 : d < -4) : find_next_regime d R4 = some R3 :=
  find_next_down (not_in_range' (Or.inl (by norm_num [R4]; linarith)))
    pyListIndex_R4 (by norm_num [R4]; linarith) (by decide)

theorem next_R5_down {d : ℚ} (h1 : d < 21) : find_next_regime d R5 = some R4 :=
  find_next_down (not_in_range' (Or.inl (by norm_num [R5]; linarith)))
    pyListIndex_R5 (by norm_num [R5]; linarith) (by decide)

theorem next_R6_down {d : ℚ} (h1 : d < 46) : find_next_regime d R6 = some R5 :=
  find_next_down (not_in_range' (Or.inl (by norm_num [R6]; linarith)))
    pyListIndex_R6 (by norm_num [R6]; linarith) (by decide)

/-- The iteration stops (chain of length one) once the destination is inside
the current regime. -/
theorem regime_chain_stop (d : ℚ) (r : TurnTableElevationRegime) (n : ℕ)
    (h : r.is_in_allowable_range d = true) : regime_chain d n r = some [r] := by
  cases n <;> simp [regime_chain, h]

/-- Unfolding one hop of the regime-chain iteration. -/
theorem chain_cons {d : ℚ} {r r2 : TurnTableElevationRegime} {n : ℕ}
    {L : List TurnTableElevationRegime}
    (h : r.is_in_allowable_range d = false)
    (h2 : find_next_regime d r = some r2)
    (h3 : regime_chain d n r2 = some L) :
    regime_chain d (n + 1) r = some (r :: L) := by
  simp [regime_chain, h, h2, h3]

/-- Claim C4: from every start regime in the catalog and every destination
elevation within the mechanical elevation bounds [−90, 45], iterating
`find_next_regime` (the loop of `move_to`) reaches a regime whose window
contains the destination within the catalog size (the chain, start and final
regime included, has at most 7 entries, i.e. at most 6 hops ≤ len(catalog)
steps), and never revisits a regime. -/
theorem regime_chain_reaches (r : TurnTableElevationRegime) (d : ℚ)
    (hr : r ∈ elevation_regimes) (h1 : -90 ≤ d) (h2 : d ≤ 45) :
    ∃ L rend, regime_chain d 7 r = some L ∧ L ≠ [] ∧ L.getLast? = some rend ∧
      rend.is_in_allowable_range d = true ∧ L.Nodup ∧ L.length ≤ 7 := by
  rw [catalog_eq] at hr
  fin_cases hr
  · -- start R0 (center −75)
    rcases le_or_lt d (-46) with hA | hA
    · have i : R0.is_in_allowable_range d = true :=
        in_range' (by norm_num [R0]; linarith) (by norm_num [R0]; linarith)
      exact ⟨[R0], R0, regime_chain_stop d R0 7 i, by simp, rfl, i, by decide, by norm_num⟩
    rcases le_or_lt d (-21) with hB | hB
    · have i : R1.is_in_allowable_range d = true :=
        in_range' (by norm_num [R1]; linarith) (by norm_num [R1]; linarith)
      exact ⟨[R0, R1], R1,
        chain_cons (not_in_range' (Or.inr (by norm_num [R0]; linarith))) (next_R0_up hA)
          (regime_chain_stop d R1 6 i),
        by simp, rfl, i, by decide, by norm_num⟩
    rcases le_or_lt d 4 with hC | hC
    · have i : R2.is_in_allowable_range d = true :=
        in_range' (by norm_num [R2]; linarith) (by norm_num [R2]; linarith)
      exact ⟨[R0, R1, R2], R2,
        chain_cons (not_in_range' (Or.inr (by norm_num [R0]; linarith))) (next_R0_up hA)
          (chain_cons (not_in_range' (Or.inr (by norm_num [R1]; linarith))) (next_R1_up hB)
            (regime_chain_stop d R2 5 i)),
        by simp, rfl, i, by decide, by norm_num⟩
    rcases le_or_lt d 29 with hD | hD
    · have i : R3.is_in_allowable_range d = true :=
        in_range' (by norm_num [R3]; linarith) (by norm_num [R3]; linarith)
      exact ⟨[R0, R1, R2, R3], R3,
        chain_cons (not_in_range' (Or.inr (by norm_num [R0]; linarith))) (next_R0_up hA)
          (chain_cons (not_in_range' (Or.inr (by norm_num [R1]; linarith))) (next_R1_up hB)
            (chain_cons (not_in_range' (Or.inr (by norm_num [R2]; linarith))) (next_R2_up hC)
              (regime_chain_stop d R3 4 i))),
        by simp, rfl, i, by decide, by norm_num⟩
    · have i : R4.is_in_allowable_range d = true :=
        in_range' (by norm_num [R4]; linarith) (by norm_num [R4]; linarith)
      exact ⟨[R0, R1, R2, R3, R4], R4,
        chain_cons (not_in_range' (Or.inr (by norm_num [R0]; linarith))) (next_R0_up hA)
          (chain_cons (not_in_range' (Or.inr (by norm_num [R1]; linarith))) (next_R1_up hB)
            (chain_cons (not_in_range' (Or.inr (by norm_num [R2]; linarith))) (next_R2_up hC)
              (chain_cons (not_in_range' (Or.inr (by norm_num [R3]; linarith))) (next_R3_up hD)
                (regime_chain_stop d R4 3 i)))),
        by simp, rfl, i, by decide, by norm_num⟩
  · -- start R1 (center −50)
    rcases lt_or_le d (-79) with hA | hA
    · have i : R0.is_in_allowable_range d = true :=
        in_range' (by norm_num [R0]; linarith) (by norm_num [R0]; linarith)
      exact ⟨[R1, R0], R0,
        chain_cons (not_in_range' (Or.inl (by norm_num [R1]; linarith))) (next_R1_down hA)
          (regime_chain_stop d R0 6 i),
        by simp, rfl, i, by decide, by norm_num⟩
    rcases le_or_lt d (-21) with hB | hB
    · have i : R1.is_in_allowable_range d = true :=
        in_range' (by norm_num [R1]; linarith) (by norm_num [R1]; linarith)
      exact ⟨[R1], R1, regime_chain_stop d R1 7 i, by simp, rfl, i, by decide, by norm_num⟩
    rcases le_or_lt d 4 with hC | hC
    · have i : R2.is_in_allowable_range d = true :=
        in_range' (by norm_num [R2]; linarith) (by norm_num [R2]; linarith)
      exact ⟨[R1, R2], R2,
        chain_cons (not_in_range' (Or.inr (by norm_num [R1]; linarith))) (next_R1_up hB)
          (regime_chain_stop d R2 6 i),
        by simp, rfl, i, by decide, by norm_num⟩
    rcases le_or_lt d 29 with hD | hD
    · have i : R3.is_in_allowable_range d = true :=
        in_range' (by norm_num [R3]; linarith) (by norm_num [R3]; linarith)
      exact ⟨[R1, R2, R3], R3,
        chain_cons (not_in_range' (Or.inr (by norm_num [R1]; linarith))) (next_R1_up hB)
          (chain_cons (not_in_range' (Or.inr (by norm_num [R2]; linarith))) (next_R2_up hC)
            (regime_chain_stop d R3 5 i)),
        by simp, rfl, i, by decide, by norm_num⟩
    · have i : R4.is_in_allowable_range d = true :=
        in_range' (by norm_num [R4]; linarith) (by norm_num [R4]; linarith)
      exact ⟨[R1, R2, R3, R4], R4,
        chain_cons (not_in_range' (Or.inr (by norm_num [R1]; linarith))) (next_R1_up hB)
          (chain_cons (not_in_range' (Or.inr (by norm_num [R2]; linarith))) (next_R2_up hC)
            (chain_cons (not_in_range' (Or.inr (by norm_num [R3]; linarith))) (next_R3_up hD)
              (regime_chain_stop d R4 4 i))),
        by simp, rfl, i, by decide, by norm_num⟩
  · -- start R2 (center −25)
    rcases lt_or_le d (-79) with hA | hA
    · have i : R0.is_in_allowable_range d = true :=
        in_range' (by norm_num [R0]; linarith) (by norm_num [R0]; linarith)
      exact ⟨[R2, R1, R0], R0,
        chain_cons (not_in_range' (Or.inl (by norm_num [R2]; linarith))) (next_R2_down (by linarith))
          (chain_cons (not_in_range' (Or.inl (by norm_num [R1]; linarith))) (next_R1_down hA)
            (regime_chain_stop d R0 5 i)),
        by simp, rfl, i, by decide, by norm_num⟩
    rcases lt_or_le d (-54) with hB | hB
    · have i : R1.is_in_allowable_range d = true :=
        in_range' (by norm_num [R1]; linarith) (by norm_num [R1]; linarith)
      exact ⟨[R2, R1], R1,
        chain_cons (not_in_range' (Or.inl (by norm_num [R2]; linarith))) (next_R2_down hB)
          (regime_chain_stop d R1 6 i),
        by simp, rfl, i, by decide, by norm_num⟩
    rcases le_or_lt d 4 with hC | hC
    · have i : R2.is_in_allowable_range d = true :=
        in_range' (by norm_num [R2]; linarith) (by norm_num [R2]; linarith)
      exact ⟨[R2], R2, regime_chain_stop d R2 7 i, by simp, rfl, i, by decide, by norm_num⟩
    rcases le_or_lt d 29 with hD | hD
    · have i : R3.is_in_allowable_range d = true :=
        in_range' (by norm_num [R3]; linarith) (by norm_num [R3]; linarith)
      exact ⟨[R2, R3], R3,
        chain_cons (not_in_range' (Or.inr (by norm_num [R2]; linarith))) (next_R2_up hC)
          (regime_chain_stop d R3 6 i),
        by simp, rfl, i, by decide, by norm_num⟩
    · have i : R4.is_in_allowable_range d = true :=
        in_range' (by norm_num [R4]; linarith) (by norm_num [R4]; linarith)
      exact ⟨[R2, R3, R4], R4,
        chain_cons (not_in_range' (Or.inr (by norm_num [R2]; linarith))) (next_R2_up hC)
          (chain_cons (not_in_range' (Or.inr (by norm_num [R3]; linarith))) (next_R3_up hD)
            (regime_chain_stop d R4 5 i)),
        by simp, rfl, i, by decide, by norm_num⟩
  · -- start R3 (center 0)
    rcases lt_or_le d (-79) with hA | hA
    · have i : R0.is_in_allowable_range d = true :=
        in_range' (by norm_num [R0]; linarith) (by norm_num [R0]; linarith)
      exact ⟨[R3, R2, R1, R0], R0,
        chain_cons (not_in_range' (Or.inl (by norm_num [R3]; linarith))) (next_R3_down (by linarith))
          (chain_cons (not_in_range' (Or.inl (by norm_num [R2]; linarith))) (next_R2_down (by linarith))
            (chain_cons (not_in_range' (Or.inl (by norm_num [R1]; linarith))) (next_R1_down hA)
              (regime_chain_stop d R0 4 i))),
        by simp, rfl, i, by decide, by norm_num⟩
    rcases lt_or_le d (-54) with hB | hB
    · have i : R1.is_in_allowable_range d = true :=
        in_range' (by norm_num [R1]; linarith) (by norm_num [R1]; linarith)
      exact ⟨[R3, R2, R1], R1,
        chain_cons (not_in_range' (Or.inl (by norm_num [R3]; linarith))) (next_R3_down (by linarith))
          (chain_cons (not_in_range' (Or.inl (by norm_num [R2]; linarith))) (next_R2_down hB)
            (regime_chain_stop d R1 5 i)),
        by simp, rfl, i, by decide, by norm_num⟩
    rcases lt_or_le d (-29) with hC | hC
    · have i : R2.is_in_allowable_range d = true :=
        in_range' (by norm_num [R2]; linarith) (by norm_num [R2]; linarith)
      exact ⟨[R3, R2], R2,
        chain_cons (not_in_range' (Or.inl (by norm_num [R3]; linarith))) (next_R3_down hC)
          (regime_chain_stop d R2 6 i),
        by simp, rfl, i, by decide, by norm_num⟩
    rcases le_or_lt d 29 with hD | hD
    · have i : R3.is_in_allowable_range d = true :=
        in_range' (by norm_num [R3]; linarith) (by norm_num [R3]; linarith)
      exact ⟨[R3], R3, regime_chain_stop d R3 7 i, by simp, rfl, i, by decide, by norm_num⟩
    · have i : R4.is_in_allowable_range d = true :=
        in_range' (by norm_num [R4]; linarith) (by norm_num [R4]; linarith)
      exact ⟨[R3, R4], R4,
        chain_cons (not_in_range' (Or.inr (by norm_num [R3]; linarith))) (next_R3_up hD)
          (regime_chain_stop d R4 6 i),
        by simp, rfl, i, by decide, by norm_num⟩
  · -- start R4 (center 25)
    rcases lt_or_le d (-79) with hA | hA
    · have i : R0.is_in_allowable_range d = true :=
        in_range' (by norm_num [R0]; linarith) (by norm_num [R0]; linarith)
      exact ⟨[R4, R3, R2, R1, R0], R0,
        chain_cons (not_in_range' (Or.inl (by norm_num [R4]; linarith))) (next_R4_down (by linarith))
          (chain_cons (not_in_range' (Or.inl (by norm_num [R3]; linarith))) (next_R3_down (by linarith))
            (chain_cons (not_in_range' (Or.inl (by norm_num [R2]; linarith))) (next_R2_down (by linarith))
              (chain_cons (not_in_range' (Or.inl (by norm_num [R1]; linarith))) (next_R1_down hA)
                (regime_chain_stop d R0 3 i)))),
        by simp, rfl, i, by decide, by norm_num⟩
    rcases lt_or_le d (-54) with hB | hB
    · have i : R1.is_in_allowable_range d = true :=
        in_range' (by norm_num [R1]; linarith) (by norm_num [R1]; linarith)
      exact ⟨[R4, R3, R2, R1], R1,
        chain_cons (not_in_range' (Or.inl (by norm_num [R4]; linarith))) (next_R4_down (by linarith))
          (chain_cons (not_in_range' (Or.inl (by norm_num [R3]; linarith))) (next_R3_down (by linarith))
            (chain_cons (not_in_range' (Or.inl (by norm_num [R2]; linarith))) (next_R2_down hB)
              (regime_chain_stop d R1 4 i))),
        by simp, rfl, i, by decide, by norm_num⟩
    rcases lt_or_le d (-29) with hC | hC
    · have i : R2.is_in_allowable_range d = true :=
        in_range' (by norm_num [R2]; linarith) (by norm_num [R2]; linarith)
      exact ⟨[R4, R3, R2], R2,
        chain_cons (not_in_range' (Or.inl (by norm_num [R4]; linarith))) (next_R4_down (by linarith))
          (chain_cons (not_in_range' (Or.inl (by norm_num [R3]; linarith))) (next_R3_down hC)
            (regime_chain_stop d R2 5 i)),
        by simp, rfl, i, by decide, by norm_num⟩
    rcases lt_or_le d (-4) with hD | hD
    · have i : R3.is_in_allowable_range d = true :=
        in_range' (by norm_num [R3]; linarith) (by norm_num [R3]; linarith)
      exact ⟨[R4, R3], R3,
        chain_cons (not_in_range' (Or.inl (by norm_num [R4]; linarith))) (next_R4_down hD)
          (regime_chain_stop d R3 6 i),
        by simp, rfl, i, by decide, by norm_num⟩
    · have i : R4.is_in_allowable_range d = true :=
        in_range' (by norm_num [R4]; linarith) (by norm_num [R4]; linarith)
      exact ⟨[R4], R4, regime_chain_stop d R4 7 i, by simp, rfl, i, by decide, by norm_num⟩
  · -- start R5 (center 50)
    rcases lt_or_le d (-79) with hA | hA
    · have i : R0.is_in_allowable_range d = true :=
        in_range' (by norm_num [R0]; linarith) (by norm_num [R0]; linarith)
      exact ⟨[R5, R4, R3, R2, R1, R0], R0,
        chain_cons (not_in_range' (Or.inl (by norm_num [R5]; linarith))) (next_R5_down (by linarith))
          (chain_cons (not_in_range' (Or.inl (by norm_num [R4]; linarith))) (next_R4_down (by linarith))
            (chain_cons (not_in_range' (Or.inl (by norm_num [R3]; linarith))) (next_R3_down (by linarith))
              (chain_cons (not_in_range' (Or.inl (by norm_num [R2]; linarith))) (next_R2_down (by linarith))
                (chain_cons (not_in_range' (Or.inl (by norm_num [R1]; linarith))) (next_R1_down hA)
                  (regime_chain_stop d R0 2 i))))),
        by simp, rfl, i, by decide, by norm_num⟩
    rcases lt_or_le d (-54) with hB | hB
    · have i : R1.is_in_allowable_range d = true :=
        in_range' (by norm_num [R1]; linarith) (by norm_num [R1]; linarith)
      exact ⟨[R5, R4, R3, R2, R1], R1,
        chain_cons (not_in_range' (Or.inl (by norm_num [R5]; linarith))) (next_R5_down (by linarith))
          (chain_cons (not_in_range' (Or.inl (by norm_num [R4]; linarith))) (next_R4_down (by linarith))
            (chain_cons (not_in_range' (Or.inl (by norm_num [R3]; linarith))) (next_R3_down (by linarith))
              (chain_cons (not_in_range' (Or.inl (by norm_num [R2]; linarith))) (next_R2_down hB)
                (regime_chain_stop d R1 3 i)))),
        by simp, rfl, i, by decide, by norm_num⟩
    rcases lt_or_le d (-29) with hC | hC
    · have i : R2.is_in_allowable_range d = true :=
        in_range' (by norm_num [R2]; linarith) (by norm_num [R2]; linarith)
      exact ⟨[R5, R4, R3, R2], R2,
        chain_cons (not_in_range' (Or.inl (by norm_num [R5]; linarith))) (next_R5_down (by linarith))
          (chain_cons (not_in_range' (Or.inl (by norm_num [R4]; linarith))) (next_R4_down (by linarith))
            (chain_cons (not_in_range' (Or.inl (by norm_num [R3]; linarith))) (next_R3_down hC)
              (regime_chain_stop d R2 4 i))),
        by simp, rfl, i, by decide, by norm_num⟩
    rcases lt_or_le d (-4) with hD | hD
    · have i : R3.is_in_allowable_range d = true :=
        in_range' (by norm_num [R3]; linarith) (by norm_num [R3]; linarith)
      exact ⟨[R5, R4, R3], R3,
        chain_cons (not_in_range' (Or.inl (by norm_num [R5]; linarith))) (next_R5_down (by linarith))
          (chain_cons (not_in_range' (Or.inl (by norm_num [R4]; linarith))) (next_R4_down hD)
            (regime_chain_stop d R3 5 i)),
        by simp, rfl, i, by decide, by norm_num⟩
    rcases lt_or_le d 21 with hE | hE
    · have i : R4.is_in_allowable_range d = true :=
        in_range' (by norm_num [R4]; linarith) (by norm_num [R4]; linarith)
      exact ⟨[R5, R4], R4,
        chain_cons (not_in_range' (Or.inl (by norm_num [R5]; linarith))) (next_R5_down hE)
          (regime_chain_stop d R4 6 i),
        by simp, rfl, i, by decide, by norm_num⟩
    · have i : R5.is_in_allowable_range d = true :=
        in_range' (by norm_num [R5]; linarith) (by norm_num [R5]; linarith)
      exact ⟨[R5], R5, regime_chain_stop d R5 7 i, by simp, rfl, i, by decide, by norm_num⟩
  · -- start R6 (center 75)
    rcases lt_or_le d (-79) with hA | hA
    · have i : R0.is_in_allowable_range d = true :=
        in_range' (by norm_num [R0]; linarith) (by norm_num [R0]; linarith)
      exact ⟨[R6, R5, R4, R3, R2, R1, R0], R0,
        chain_cons (not_in_range' (Or.inl (by norm_num [R6]; linarith))) (next_R6_down (by linarith))
          (chain_cons (not_in_range' (Or.inl (by norm_num [R5]; linarith))) (next_R5_down (by linarith))
            (chain_cons (not_in_range' (Or.inl (by norm_num [R4]; linarith))) (next_R4_down (by linarith))
              (chain_cons (not_in_range' (Or.inl (by norm_num [R3]; linarith))) (next_R3_down (by linarith))
                (chain_cons (not_in_range' (Or.inl (by norm_num [R2]; linarith))) (next_R2_down (by linarith))
                  (chain_cons (not_in_range' (Or.inl (by norm_num [R1]; linarith))) (next_R1_down hA)
                    (regime_chain_stop d R0 1 i)))))),
        by simp, rfl, i, by decide, by norm_num⟩
    rcases lt_or_le d (-54) with hB | hB
    · have i : R1.is_in_allowable_range d = true :=
        in_range' (by norm_num [R1]; linarith) (by norm_num [R1]; linarith)
      exact ⟨[R6, R5, R4, R3, R2, R1], R1,
        chain_cons (not_in_range' (Or.inl (by norm_num [R6]; linarith))) (next_R6_down (by linarith))
          (chain_cons (not_in_range' (Or.inl (by norm_num [R5]; linarith))) (next_R5_down (by linarith))
            (chain_cons (not_in_range' (Or.inl (by norm_num [R4]; linarith))) (next_R4_down (by linarith))
              (chain_cons (not_in_range' (Or.inl (by norm_num [R3]; linarith))) (next_R3_down (by linarith))
                (chain_cons (not_in_range' (Or.inl (by norm_num [R2]; linarith))) (next_R2_down hB)
                  (regime_chain_stop d R1 2 i))))),
        by simp, rfl, i, by decide, by norm_num⟩
    rcases lt_or_le d (-29) with hC | hC
    · have i : R2.is_in_allowable_range d = true :=
        in_range' (by norm_num [R2]; linarith) (by norm_num [R2]; linarith)
      exact ⟨[R6, R5, R4, R3, R2], R2,
        chain_cons (not_in_range' (Or.inl (by norm_num [R6]; linarith))) (next_R6_down (by linarith))
          (chain_cons (not_in_range' (Or.inl (by norm_num [R5]; linarith))) (next_R5_down (by linarith))
            (chain_cons (not_in_range' (Or.inl (by norm_num [R4]; linarith))) (next_R4_down (by linarith))
              (chain_cons (not_in_range' (Or.inl (by norm_num [R3]; linarith))) (next_R3_down hC)
                (regime_chain_stop d R2 3 i)))),
        by simp, rfl, i, by decide, by norm_num⟩
    rcases lt_or_le d (-4) with hD | hD
    · have i : R3.is_in_allowable_range d = true :=
        in_range' (by norm_num [R3]; linarith) (by norm_num [R3]; linarith)
      exact ⟨[R6, R5, R4, R3], R3,
        chain_cons (not_in_range' (Or.inl (by norm_num [R6]; linarith))) (next_R6_down (by linarith))
          (chain_cons (not_in_range' (Or.inl (by norm_num [R5]; linarith))) (next_R5_down (by linarith))
            (chain_cons (not_in_range' (Or.inl (by norm_num [R4]; linarith))) (next_R4_down hD)
              (regime_chain_stop d R3 4 i))),
        by simp, rfl, i, by decide, by norm_num⟩
    rcases lt_or_le d 21 with hE | hE
    · have i : R4.is_in_allowable_range d = true :=
        in_range' (by norm_num [R4]; linarith) (by norm_num [R4]; linarith)
      exact ⟨[R6, R5, R4], R4,
        chain_cons (not_in_range' (Or.inl (by norm_num [R6]; linarith))) (next_R6_down (by linarith))
          (chain_cons (not_in_range' (Or.inl (by norm_num [R5]; linarith))) (next_R5_down hE)
            (regime_chain_stop d R4 5 i)),
        by simp, rfl, i, by decide, by norm_num⟩
    · have i : R5.is_in_allowable_range d = true :=
        in_range' (by norm_num [R5]; linarith) (by norm_num [R5]; linarith)
      exact ⟨[R6, R5], R5,
        chain_cons (not_in_range' (Or.inl (by norm_num [R6]; linarith))) (next_R6_down (by linarith))
          (regime_chain_stop d R5 6 i),
        by simp, rfl, i, by decide, by norm_num⟩

/-- Witness for C4: a concrete cross-catalog traversal, from the regime
centered at 75° down to a destination of −90°. -/
theorem regime_chain_reaches_wit :
    R6 ∈ elevation_regimes ∧ (-90 : ℚ) ≤ -90 ∧ (-90 : ℚ) ≤ 45 ∧
    ∃ L rend, regime_chain (-90) 7 R6 = some L ∧ L ≠ [] ∧ L.getLast? = some rend ∧
      rend.is_in_allowable_range (-90) = true ∧ L.Nodup ∧ L.length ≤ 7 :=
  ⟨by decide, by norm_num, by norm_num,
    regime_chain_reaches R6 (-90) (by decide) (by norm_num) (by norm_num)⟩

/-- Claim C10: at the catalog edges, `find_next_regime` does not step toward
an out-of-catalog destination.  From the lowest regime (center −75°) with the
destination below its window, Python's `[-1]` wrap-around returns the highest
regime (center +75°); from the highest regime (center 75°) with the
destination above its window, the `[index + 1]` access raises `IndexError`
(modelled as `none`). -/
theorem find_next_regime_edges :
    (∀ d : ℚ, d < -104 → find_next_regime d R0 = some R6) ∧
    (∀ d : ℚ, 104 < d → find_next_regime d R6 = none) := by
  constructor
  · intro d hd
    have hc : R0.is_in_allowable_range d = false := not_in_range (by left; norm_num; linarith)
    have hgt : ¬ (d > R0.center_angle) := by
      show ¬ (d > -75); push_neg; linarith
    simp only [find_next_regime, hc, Bool.false_eq_true, if_false, pyListIndex_R0, if_neg hgt]
    decide
  · intro d hd
    have hc : R6.is_in_allowable_range d = false := not_in_range (by right; norm_num; linarith)
    have hgt : d > R6.center_angle := by show d > 75; linarith
    simp only [find_next_regime, hc, Bool.false_eq_true, if_false, pyListIndex_R6, if_pos hgt]
    decide

/-- Witness for C10 at concrete destinations −200° and 200°. -/
theorem find_next_regime_edges_wit :
    find_next_regime (-200) R0 = some R6 ∧ find_next_regime 200 R6 = none :=
  ⟨find_next_regime_edges.1 (-200) (by norm_num),
   find_next_regime_edges.2 200 (by norm_num)⟩

/-- Witness for C7 at angle 10°. -/
theorem find_best_regime_spec_wit :
    ∃ r, find_best_regime 10 = some r ∧ r.is_in_allowable_range 10 = true ∧
      r ∈ elevation_regimes ∧
      ∀ r2 ∈ elevation_regimes, |(10 : ℚ) - r.center_angle| ≤ |(10 : ℚ) - r2.center_angle| :=
  (find_best_regime_spec 10).1 (by norm_num)

/-! ## Telemetry parser

Embedding of `Turntable.parse_az_el` and `azimuth_elevation_regex` from
`src/msu_anechoic/turn_table.py`.  Byte strings are lists of byte values
(`List ℕ`, each entry < 256); the regex
`Pos= El: (-?\d{1,3}\.\d{2}) , Az: (-?\d{1,3}\.\d{2})` is embedded as an
explicit matcher with `re.search` semantics (first position at which the
anchored match succeeds).  The numeric groups always parse as floats, modelled
exactly as rationals, so the `float(...)`/`ValueError` fallback of the source
is dead code here as it is there. -/

/-- Whether a byte is an ASCII digit, `0x30`–`0x39`. -/
def isDigitB (b : ℕ) : Bool := 48 ≤ b && b ≤ 57

/-- The byte literal `"Pos= El: "`. -/
def posElLit : List ℕ := [80, 111, 115, 61, 32, 69, 108, 58, 32]

/-- The byte literal `" , Az: "`. -/
def azLit : List ℕ := [32, 44, 32, 65, 122, 58, 32]

/-- Consume an exact byte literal from the head of the input (`none` on
mismatch), as the literal parts of the regex do. -/
def dropLit : List ℕ → List ℕ → Option (List ℕ)
  | [], rest => some rest
  | _ :: _, [] => none
  | p :: ps, b :: bs => if b = p then dropLit ps bs else none

/-- Match the regex fragment `-?\d{1,3}\.\d{2}` at the head of the input,
returning the parsed value (exact rational) and the remaining input.  The
greedy `\d{1,3}` with the mandatory following `\.` is equivalent to: the
maximal leading digit run must have length 1–3 and be followed by `.`. -/
def matchNumBody (neg : Bool) (l1 : List ℕ) : Option (ℚ × List ℕ) :=
  let ints := l1.takeWhile isDigitB
  let l2 := l1.drop ints.length
  if ints.length = 0 ∨ 3 < ints.length then none
  else
    match l2 with
    | 46 :: d1 :: d2 :: rest =>
        if isDigitB d1 && isDigitB d2 then
          let ip : ℕ := ints.foldl (fun acc b => acc * 10 + (b - 48)) 0
          let fp : ℕ := (d1 - 48) * 10 + (d2 - 48)
          let v : ℚ := (ip : ℚ) + (fp : ℚ) / 100
          some (if neg then -v else v, rest)
        else none
    | _ => none

def matchNum (l : List ℕ) : Option (ℚ × List ℕ) :=
  matchNumBody (l.head? = some 45) (if l.head? = some 45 then l.tail else l)

/-- Match the full `azimuth_elevation_regex` anchored at the head of the
input: literal `"Pos= El: "`, the elevation group, literal `" , Az: "`, the
azimuth group (nothing is required after the azimuth group — the pattern ends
there). -/
def matchAzEl (l : List ℕ) : Option AzEl :=
  (dropLit posElLit l).bind fun r1 =>
    (matchNum r1).bind fun er =>
      (dropLit azLit er.2).bind fun r3 =>
        (matchNum r3).map fun ar => ⟨ar.1, er.1⟩

/-- `re.search`: try the anchored match at each successive start position
(the match at the empty tail also fails, since the pattern starts with a
nonempty literal). -/
def searchAzEl : List ℕ → Option AzEl
  | [] => matchAzEl []
  | b :: rest =>
      match matchAzEl (b :: rest) with
      | some v => some v
      | none => searchAzEl rest

/-- Whether the input starts with the byte literal `"Pos"`. -/
def startsWithPos (l : List ℕ) : Bool :=
  match l with
  | 80 :: 111 :: 115 :: _ => true
  | _ => false

/-- Index of the first occurrence of `b"Pos"` (`bytes.index`), `none` when
absent (the `b"Pos" not in line` guard). -/
def findPos : List ℕ → Option ℕ
  | [] => none
  | b :: rest =>
      if startsWithPos (b :: rest) then some 0 else (findPos rest).map (· + 1)

/-- The body of the per-line loop of `parse_az_el`: skip the line when `"Pos"`
is absent, cut the line at the first `"Pos"`, skip the line when it is not
pure ASCII (`UnicodeDecodeError`), then search the regex.  The matched groups
always convert (`float` cannot fail on them), so a match returns its value. -/
def processLine (line : List ℕ) : Option AzEl :=
  match findPos line with
  | none => none
  | some i =>
      let line2 := line.drop i
      if line2.all (fun b => b < 128) then searchAzEl line2 else none

/-- Python `data.split(b"\n")` (byte 10); always returns at least one
(possibly empty) chunk, and keeps empty chunks. -/
def splitOnNl : List ℕ → List (List ℕ)
  | [] => [[]]
  | b :: rest =>
      if b = 10 then [] :: splitOnNl rest
      else
        match splitOnNl rest with
        | [] => [[b]]
        | l :: ls => (b :: l) :: ls

/-- `Turntable.parse_az_el`: split the buffer on newlines, scan the lines from
most recent to oldest, and return the first line's parsed value; `none` when
no line yields one. -/
def parse_az_el (data : List ℕ) : Option AzEl :=
  (splitOnNl data).reverse.findSome? processLine

/-! ### The well-formed frame grammar

The firmware emits `"Pos= El: %.2f , Az: %.2f \r\n"`.  A numeric field is an
optional minus sign, one to three integer digits, a dot, and exactly two
fractional digits; a well-formed frame is the two fields in the fixed
template, terminated by `" \r\n"`. -/

/-- A numeric field of a telemetry frame, as digit values (each < 10). -/
structure RawNum where
  neg : Bool
  ints : List ℕ
  fracs : List ℕ
  deriving DecidableEq

/-- The byte rendering of a numeric field. -/
def RawNum.bytes (n : RawNum) : List ℕ :=
  (if n.neg then [45] else []) ++ n.ints.map (· + 48) ++ [46] ++ n.fracs.map (· + 48)

/-- The numeric value of a field (exact rational). -/
def RawNum.val (n : RawNum) : ℚ :=
  let ip : ℕ := n.ints.foldl (fun acc b => acc * 10 + b) 0
  let fp : ℕ := n.fracs.foldl (fun acc b => acc * 10 + b) 0
  let v : ℚ := (ip : ℚ) + (fp : ℚ) / ((10 : ℚ) ^ n.fracs.length)
  if n.neg then -v else v

/-- Validity of a numeric field as printed by the firmware's `%.2f`: one to
three integer digits, exactly two fractional digits, all digit values < 10. -/
def RawNum.wf (n : RawNum) : Prop :=
  1 ≤ n.ints.length ∧ n.ints.length ≤ 3 ∧ (∀ b ∈ n.ints, b < 10) ∧
    (∀ b ∈ n.fracs, b < 10) ∧ n.fracs.length = 2

instance (n : RawNum) : Decidable n.wf := by
  unfold RawNum.wf; infer_instance

/-- The bytes of a complete well-formed telemetry frame
`"Pos= El: <e> , Az: <a> \r\n"`. -/
def frameBytes (e a : RawNum) : List ℕ :=
  posElLit ++ e.bytes ++ azLit ++ a.bytes ++ [32, 13, 10]

/-- A byte string contains a well-formed telemetry frame somewhere inside
it. -/
def ContainsFrame (l : List ℕ) : Prop :=
  ∃ pre e a suf, RawNum.wf e ∧ RawNum.wf a ∧ l = pre ++ frameBytes e a ++ suf

/-! ### Parser lemmas -/

theorem dropLit_self (lit r : List ℕ) : dropLit lit (lit ++ r) = some r := by
  induction lit with
  | nil => rfl
  | cons p ps ih => simp [dropLit, ih]

theorem dropLit_ne_head {p b : ℕ} {ps bs : List ℕ} (h : b ≠ p) :
    dropLit (p :: ps) (b :: bs) = none := by
  simp [dropLit, h]

theorem isDigitB_add48 {b : ℕ} (h : b < 10) : isDigitB (b + 48) = true := by
  simp only [isDigitB, Bool.and_eq_true, decide_eq_true_eq]
  omega

theorem isDigitB_false {b : ℕ} (h : b < 48 ∨ 57 < b) : isDigitB b = false := by
  simp only [isDigitB, Bool.and_eq_true, decide_eq_true_eq, Bool.and_eq_false_iff,
    decide_eq_false_iff_not, not_le]
  omega

/-- The maximal digit run of a digit block followed by a non-digit byte is the
block itself. -/
theorem takeWhile_digits (ds : List ℕ) (h : ∀ b ∈ ds, b < 10) (t : List ℕ)
    (ht : ∀ b, t.head? = some b → isDigitB b = false) :
    (ds.map (· + 48) ++ t).takeWhile isDigitB = ds.map (· + 48) := by
  induction ds with
  | nil =>
      match t with
      | [] => rfl
      | b :: bs => simp [List.takeWhile_cons, ht b rfl]
  | cons d ds2 ih =>
      simp only [List.map_cons, List.cons_append, List.takeWhile_cons,
        isDigitB_add48 (h d (List.mem_cons_self d ds2)), if_true, List.cons.injEq, true_and]
      exact ih (fun b hb => h b (List.mem_cons_of_mem _ hb))

/-- Reading digit bytes back to a number undoes the `+ 48` encoding. -/
theorem foldl_digits (ds : List ℕ) (h : ∀ b ∈ ds, b < 10) :
    ∀ acc : ℕ, (ds.map (· + 48)).foldl (fun acc b => acc * 10 + (b - 48)) acc =
      ds.foldl (fun acc b => acc * 10 + b) acc := by
  induction ds with
  | nil => intro acc; rfl
  | cons d ds2 ih =>
      intro acc
      simp only [List.map_cons, List.foldl_cons]
      rw [show d + 48 - 48 = d from by omega]
      exact ih (fun b hb => h b (List.mem_cons_of_mem _ hb)) _

/-- The digit value reached by the numeric groups of the regex. -/
def groupVal (neg : Bool) (ints : List ℕ) (f1 f2 : ℕ) : ℚ :=
  let ip : ℕ := ints.foldl (fun acc b => acc * 10 + b) 0
  let v : ℚ := (ip : ℚ) + ((f1 * 10 + f2 : ℕ) : ℚ) / 100
  if neg then -v else v

/-- Evaluation of the post-sign part of the numeric match on a digit block
with at least two fractional digits: the match succeeds, consuming the integer
digits, the dot and exactly two fractional digits. -/
theorem matchNumBody_ok (neg : Bool) (ints : List ℕ) (f1 f2 : ℕ) (R : List ℕ)
    (h1 : 1 ≤ ints.length) (h2 : ints.length ≤ 3) (h3 : ∀ b ∈ ints, b < 10)
    (h4 : f1 < 10) (h5 : f2 < 10) :
    matchNumBody neg (ints.map (· + 48) ++ (46 :: (f1 + 48) :: (f2 + 48) :: R)) =
      some (groupVal neg ints f1 f2, R) := by
  have htake : (ints.map (· + 48) ++
      (46 :: (f1 + 48) :: (f2 + 48) :: R)).takeWhile isDigitB = ints.map (· + 48) :=
    takeWhile_digits ints h3 _ (fun b hb => by
      simp only [List.head?_cons, Option.some.injEq] at hb
      exact hb ▸ isDigitB_false (by omega))
  simp only [matchNumBody, htake, List.length_map, List.drop_left']
  rw [if_neg (by push_neg; omega)]
  simp only [isDigitB_add48 h4, isDigitB_add48 h5, Bool.and_self, if_true,
    foldl_digits ints h3, groupVal,
    show f1 + 48 - 48 = f1 from by omega, show f2 + 48 - 48 = f2 from by omega]

/-- Splitting a rendered numeric field into sign and digit block. -/
theorem bytes_eq (neg : Bool) (ints fracs : List ℕ) :
    RawNum.bytes ⟨neg, ints, fracs⟩ =
      (if neg then [45] else []) ++ (ints.map (· + 48) ++ (46 :: fracs.map (· + 48))) := by
  simp [RawNum.bytes]

/-- The minus sign handling of `matchNum` on a rendered numeric field reduces
to `matchNumBody` on the digit block. -/
theorem matchNum_to_body (neg : Bool) (ints fracs rest : List ℕ)
    (h1 : 1 ≤ ints.length) (h3 : ∀ b ∈ ints, b < 10) :
    matchNum (RawNum.bytes ⟨neg, ints, fracs⟩ ++ rest) =
      matchNumBody neg (ints.map (· + 48) ++ (46 :: (fracs.map (· + 48) ++ rest))) := by
  have hbody : RawNum.bytes ⟨neg, ints, fracs⟩ ++ rest =
      (if neg then [45] else []) ++
        (ints.map (· + 48) ++ (46 :: (fracs.map (· + 48) ++ rest))) := by
    rw [bytes_eq]; simp
  rw [hbody]
  cases neg with
  | true =>
      simp only [if_pos rfl, List.singleton_append, matchNum, List.head?_cons,
        Option.some.injEq, decide_True, List.tail_cons, if_true]
  | false =>
      have hne : ¬ ((ints.map (· + 48) ++
          (46 :: (fracs.map (· + 48) ++ rest))).head? = some 45) := by
        match ints, h1 with
        | d :: ds, _ =>
            have hd : d < 10 := h3 d (List.mem_cons_self d ds)
            simp only [List.map_cons, List.cons_append, List.head?_cons, Option.some.injEq]
            omega
      simp only [Bool.false_eq_true, if_false, List.nil_append]
      simp [matchNum, hne]

/-- Evaluation of `matchNum` on a rendered numeric field with at least two
fractional digits. -/
theorem matchNum_ok (neg : Bool) (ints : List ℕ) (f1 f2 : ℕ) (fr rest : List ℕ)
    (h1 : 1 ≤ ints.length) (h2 : ints.length ≤ 3) (h3 : ∀ b ∈ ints, b < 10)
    (h4 : f1 < 10) (h5 : f2 < 10) :
    matchNum (RawNum.bytes ⟨neg, ints, f1 :: f2 :: fr⟩ ++ rest) =
      some (groupVal neg ints f1 f2, fr.map (· + 48) ++ rest) := by
  rw [matchNum_to_body neg ints (f1 :: f2 :: fr) rest h1 h3]
  rw [show (f1 :: f2 :: fr).map (· + 48) ++ rest =
    (f1 + 48) :: (f2 + 48) :: (fr.map (· + 48) ++ rest) from by simp]
  exact matchNumBody_ok neg ints f1 f2 _ h1 h2 h3 h4 h5

/-- Failure of the digit-block match when no fractional digit follows the dot
(and the remaining input does not start with a digit). -/
theorem matchNumBody_fail0 (neg : Bool) (ints : List ℕ) (R : List ℕ)
    (h3 : ∀ b ∈ ints, b < 10)
    (hR : ∀ b, R.head? = some b → isDigitB b = false) :
    matchNumBody neg (ints.map (· + 48) ++ (46 :: R)) = none := by
  have htake : (ints.map (· + 48) ++ (46 :: R)).takeWhile isDigitB = ints.map (· + 48) :=
    takeWhile_digits ints h3 _ (fun b hb => by
      simp only [List.head?_cons, Option.some.injEq] at hb
      exact hb ▸ isDigitB_false (by omega))
  simp only [matchNumBody, htake, List.length_map, List.drop_left']
  by_cases hlen : ints.length = 0 ∨ 3 < ints.length
  · rw [if_pos hlen]
  · rw [if_neg hlen]
    match R, hR with
    | [], _ => rfl
    | [r0], _ => rfl
    | r0 :: r1 :: rs, hR => simp [hR r0 rfl]

/-- Failure of the digit-block match when exactly one fractional digit follows
the dot (and the remaining input does not start with a digit). -/
theorem matchNumBody_fail1 (neg : Bool) (ints : List ℕ) (f : ℕ) (R : List ℕ)
    (h3 : ∀ b ∈ ints, b < 10) (_hf : f < 10)
    (hR : ∀ b, R.head? = some b → isDigitB b = false) :
    matchNumBody neg (ints.map (· + 48) ++ (46 :: (f + 48) :: R)) = none := by
  have htake : (ints.map (· + 48) ++ (46 :: (f + 48) :: R)).takeWhile isDigitB =
      ints.map (· + 48) :=
    takeWhile_digits ints h3 _ (fun b hb => by
      simp only [List.head?_cons, Option.some.injEq] at hb
      exact hb ▸ isDigitB_false (by omega))
  simp only [matchNumBody, htake, List.length_map, List.drop_left']
  by_cases hlen : ints.length = 0 ∨ 3 < ints.length
  · rw [if_pos hlen]
  · rw [if_neg hlen]
    match R, hR with
    | [], _ => rfl
    | r0 :: rs, hR => simp [hR r0 rfl]

/-- Failure of `matchNum` on a rendered numeric field with fewer than two
fractional digits, when what follows the field does not start with a digit. -/
theorem matchNum_fail_short (neg : Bool) (ints fr rest : List ℕ)
    (h1 : 1 ≤ ints.length) (h3 : ∀ b ∈ ints, b < 10) (hfr : ∀ b ∈ fr, b < 10)
    (hlen : fr.length < 2)
    (hrest : ∀ b, rest.head? = some b → isDigitB b = false) :
    matchNum (RawNum.bytes ⟨neg, ints, fr⟩ ++ rest) = none := by
  rw [matchNum_to_body neg ints fr rest h1 h3]
  match fr, hlen, hfr with
  | [], _, _ =>
      exact matchNumBody_fail0 neg ints rest h3 hrest
  | [f], _, hfr =>
      rw [show [f].map (· + 48) ++ rest = (f + 48) :: rest from by simp]
      exact matchNumBody_fail1 neg ints f rest h3 (hfr f (List.mem_cons_self f [])) hrest

/-- Shorthand for the integer-digit constraints of a numeric field. -/
def intsOk (ints : List ℕ) : Prop :=
  1 ≤ ints.length ∧ ints.length ≤ 3 ∧ ∀ b ∈ ints, b < 10

instance (ints : List ℕ) : Decidable (intsOk ints) := by
  unfold intsOk; infer_instance

/-- The anchored regex match on a telemetry line whose azimuth field has at
least two fractional digits: it succeeds, and the azimuth value is read from
the first two fractional digits only. -/
theorem matchAzEl_ok (e : RawNum) (he : e.wf)
    (aneg : Bool) (aints : List ℕ) (af1 af2 : ℕ) (afr : List ℕ)
    (ha1 : intsOk aints) (ha4 : af1 < 10) (ha5 : af2 < 10) (rest : List ℕ) :
    matchAzEl (posElLit ++ (e.bytes ++ (azLit ++
        (RawNum.bytes ⟨aneg, aints, af1 :: af2 :: afr⟩ ++ rest)))) =
      some ⟨groupVal aneg aints af1 af2, e.val⟩ := by
  obtain ⟨he1, he2, he3, he4, he5⟩ := he
  obtain ⟨ef1, ef2, hef⟩ := List.length_eq_two.mp he5
  obtain ⟨ha1a, ha1b, ha1c⟩ := ha1
  have hef1 : ef1 < 10 := he4 ef1 (by rw [hef]; exact List.mem_cons_self _ _)
  have hef2 : ef2 < 10 := he4 ef2 (by rw [hef]; simp)
  have heb : e.bytes = RawNum.bytes ⟨e.neg, e.ints, ef1 :: ef2 :: []⟩ := by
    rw [show e = ⟨e.neg, e.ints, e.fracs⟩ from rfl] at hef ⊢
    rw [hef]
  simp only [matchAzEl, dropLit_self, Option.some_bind]
  rw [heb, matchNum_ok e.neg e.ints ef1 ef2 [] _ he1 he2 he3 hef1 hef2]
  simp only [Option.some_bind, List.map_nil, List.nil_append, dropLit_self]
  rw [matchNum_ok aneg aints af1 af2 afr rest ha1a ha1b ha1c ha4 ha5]
  simp only [Option.map_some']
  have hv : groupVal e.neg e.ints ef1 ef2 = e.val := by
    rw [show e = ⟨e.neg, e.ints, e.fracs⟩ from rfl, hef]
    simp only [RawNum.val, groupVal, List.foldl_cons, List.foldl_nil, List.length_cons,
      List.length_nil]
    norm_num
  rw [hv]

/-- The regex match fails on a line whose elevation field has fewer than two
fractional digits. -/
theorem matchAzEl_fail_el_short (eneg : Bool) (eints efr : List ℕ)
    (h1 : intsOk eints) (hfr : ∀ b ∈ efr, b < 10) (hlen : efr.length < 2)
    (tail : List ℕ) :
    matchAzEl (posElLit ++ (RawNum.bytes ⟨eneg, eints, efr⟩ ++ (azLit ++ tail))) = none := by
  obtain ⟨h1a, _, h1c⟩ := h1
  simp only [matchAzEl, dropLit_self, Option.some_bind]
  rw [matchNum_fail_short eneg eints efr (azLit ++ tail) h1a h1c hfr hlen
    (fun b hb => by
      simp only [azLit, List.cons_append, List.head?_cons, Option.some.injEq] at hb
      exact hb ▸ isDigitB_false (by omega))]
  exact Option.none_bind _

/-- The regex match fails on a line whose elevation field has more than two
fractional digits: the two fractional digits consumed are followed by another
digit where the literal `" , Az: "` is required. -/
theorem matchAzEl_fail_el_long (eneg : Bool) (eints : List ℕ) (ef1 ef2 ef3 : ℕ)
    (efr : List ℕ) (h1 : intsOk eints) (hf1 : ef1 < 10) (hf2 : ef2 < 10) (hf3 : ef3 < 10)
    (tail : List ℕ) :
    matchAzEl (posElLit ++
      (RawNum.bytes ⟨eneg, eints, ef1 :: ef2 :: ef3 :: efr⟩ ++ (azLit ++ tail))) = none := by
  obtain ⟨h1a, h1b, h1c⟩ := h1
  simp only [matchAzEl, dropLit_self, Option.some_bind]
  rw [matchNum_ok eneg eints ef1 ef2 (ef3 :: efr) _ h1a h1b h1c hf1 hf2]
  simp only [Option.some_bind]
  rw [show (ef3 :: efr).map (· + 48) ++ (azLit ++ tail) =
      (ef3 + 48) :: (efr.map (· + 48) ++ (azLit ++ tail)) from by simp,
    show azLit = 32 :: [44, 32, 65, 122, 58, 32] from rfl, dropLit_ne_head (by omega)]
  exact Option.none_bind _

/-- The regex match fails on a line whose azimuth field has fewer than two
fractional digits (the line ends with `" \r"` after the field). -/
theorem matchAzEl_fail_az_short (e : RawNum) (he : e.wf)
    (aneg : Bool) (aints afr : List ℕ)
    (ha1 : intsOk aints) (hafr : ∀ b ∈ afr, b < 10) (hlen : afr.length < 2) :
    matchAzEl (posElLit ++ (e.bytes ++ (azLit ++
      (RawNum.bytes ⟨aneg, aints, afr⟩ ++ [32, 13])))) = none := by
  obtain ⟨he1, he2, he3, he4, he5⟩ := he
  obtain ⟨ef1, ef2, hef⟩ := List.length_eq_two.mp he5
  have hef1 : ef1 < 10 := he4 ef1 (by rw [hef]; exact List.mem_cons_self _ _)
  have hef2 : ef2 < 10 := he4 ef2 (by rw [hef]; simp)
  have heb : e.bytes = RawNum.bytes ⟨e.neg, e.ints, ef1 :: ef2 :: []⟩ := by
    rw [show e = ⟨e.neg, e.ints, e.fracs⟩ from rfl] at hef ⊢
    rw [hef]
  obtain ⟨ha1a, _, ha1c⟩ := ha1
  simp only [matchAzEl, dropLit_self, Option.some_bind]
  rw [heb, matchNum_ok e.neg e.ints ef1 ef2 [] _ he1 he2 he3 hef1 hef2]
  simp only [Option.some_bind, List.map_nil, List.nil_append, dropLit_self]
  rw [matchNum_fail_short aneg aints afr [32, 13] ha1a ha1c hafr hlen
      (fun b hb => by
        simp only [List.head?_cons, Option.some.injEq] at hb
        exact hb ▸ isDigitB_false (by omega))]
  rfl

theorem matchAzEl_nil : matchAzEl [] = none := rfl

/-- The anchored match fails at any position that does not start with the
byte `P` (0x50). -/
theorem matchAzEl_none_head {b : ℕ} {l : List ℕ} (h : b ≠ 80) :
    matchAzEl (b :: l) = none := by
  unfold matchAzEl
  rw [show posElLit = 80 :: [111, 115, 61, 32, 69, 108, 58, 32] from rfl,
    dropLit_ne_head h]
  exact Option.none_bind _

/-- The unanchored search fails when the anchored match fails at every
suffix. -/
theorem searchAzEl_none_all (l : List ℕ) (h : ∀ t, t <:+ l → matchAzEl t = none) :
    searchAzEl l = none := by
  induction l with
  | nil => rw [searchAzEl, h [] (List.suffix_refl _)]
  | cons b bs ih =>
      rw [searchAzEl, h _ (List.suffix_refl _)]
      exact ih (fun t ht => h t (ht.trans (List.suffix_cons b bs)))

theorem searchAzEl_cons_none {b : ℕ} {bs : List ℕ} (h : matchAzEl (b :: bs) = none) :
    searchAzEl (b :: bs) = searchAzEl bs := by
  rw [searchAzEl, h]

/-- The unanchored search fails when the anchored match fails at the start and
the byte `P` does not occur later. -/
theorem searchAzEl_none_of_tail (l : List ℕ) (h0 : matchAzEl l = none)
    (h1 : ∀ b ∈ l.tail, b ≠ 80) : searchAzEl l = none := by
  apply searchAzEl_none_all
  intro t ht
  match l, ht, h0, h1 with
  | [], ht, h0, _ =>
      rw [List.suffix_nil.mp ht]; exact matchAzEl_nil
  | c :: cs, ht, h0, h1 =>
      rcases List.suffix_cons_iff.mp ht with rfl | ht2
      · exact h0
      · match t, ht2 with
        | [], _ => exact matchAzEl_nil
        | b :: bs, ht2 =>
            exact matchAzEl_none_head (h1 b (ht2.mem (List.mem_cons_self b bs)))

/-- The search succeeds immediately when the anchored match succeeds. -/
theorem searchAzEl_of_match {l : List ℕ} {v : AzEl} (h : matchAzEl l = some v) :
    searchAzEl l = some v := by
  cases l with
  | nil => rw [searchAzEl]; exact h
  | cons b bs => rw [searchAzEl, h]

/-- `findPos` finds the marker at position 0 on a line starting with
`"Pos"`. -/
theorem findPos_posElLit (X : List ℕ) : findPos (posElLit ++ X) = some 0 := by
  rw [show posElLit ++ X = 80 :: 111 :: 115 :: (61 :: 32 :: 69 :: 108 :: 58 :: 32 :: X)
    from rfl]
  rw [findPos, if_pos (by rw [startsWithPos])]

/-- On an all-ASCII line starting with `"Pos"`, the per-line processing is the
regex search on the whole line. -/
theorem processLine_pos (X : List ℕ)
    (hascii : (posElLit ++ X).all (fun b => b < 128) = true) :
    processLine (posElLit ++ X) = searchAzEl (posElLit ++ X) := by
  unfold processLine
  rw [findPos_posElLit]
  simp only [List.drop_zero, hascii, if_true]

/-- On a line starting with `"Pos"` where the search fails, the per-line
processing yields nothing (whether or not the line decodes as ASCII). -/
theorem processLine_pos_none (X : List ℕ) (hs : searchAzEl (posElLit ++ X) = none) :
    processLine (posElLit ++ X) = none := by
  unfold processLine
  rw [findPos_posElLit]
  by_cases hascii : (posElLit ++ X).all (fun b => b < 128) = true
  · simp only [List.drop_zero, hascii, if_true, hs]
  · simp only [List.drop_zero, Bool.not_eq_true] at hascii ⊢
    simp [hascii]

/-- `splitOnNl` splits off a newline-free chunk before the first newline. -/
theorem splitOnNl_no_nl (xs ys : List ℕ) (h : 10 ∉ xs) :
    splitOnNl (xs ++ 10 :: ys) = xs :: splitOnNl ys := by
  induction xs with
  | nil => simp [splitOnNl]
  | cons b bs ih =>
      have hb : ¬ (b = 10) := fun hc => h (hc ▸ List.mem_cons_self b bs)
      have ih2 := ih (fun hm => h (List.mem_cons_of_mem _ hm))
      rw [List.cons_append, splitOnNl, if_neg hb, ih2]

/-- `splitOnNl` of anything ending in a newline-separated tail decomposes as
some nonempty chunk list followed by the tail's chunks. -/
theorem splitOnNl_append_exists (xs ys : List ℕ) :
    ∃ S, S ≠ [] ∧ splitOnNl (xs ++ 10 :: ys) = S ++ splitOnNl ys := by
  induction xs with
  | nil => exact ⟨[[]], by simp, by simp [splitOnNl]⟩
  | cons b bs ih =>
      obtain ⟨S, hS, hEq⟩ := ih
      by_cases hb : b = 10
      · subst hb
        refine ⟨[] :: S, by simp, ?_⟩
        rw [List.cons_append, splitOnNl, if_pos rfl, hEq, List.cons_append]
      · match S, hS with
        | s0 :: S2, _ =>
            refine ⟨(b :: s0) :: S2, by simp, ?_⟩
            rw [List.cons_append, splitOnNl, if_neg hb, hEq]
            rw [List.cons_append]
            rfl

/-- `findSome?` skips a block of elements on which the function fails. -/
theorem findSome?_append_none {α β : Type} (f : α → Option β) (A B : List α)
    (h : ∀ x ∈ A, f x = none) : (A ++ B).findSome? f = B.findSome? f := by
  induction A with
  | nil => rfl
  | cons a as ih =>
      rw [List.cons_append, List.findSome?_cons, h a (List.mem_cons_self a as)]
      exact ih (fun x hx => h x (List.mem_cons_of_mem _ hx))

/-- Parsing a buffer that is a single newline-terminated line is the per-line
processing of that line. -/
theorem parse_single_line (line : List ℕ) (h : 10 ∉ line) :
    parse_az_el (line ++ [10]) = processLine line := by
  have h0 : processLine [] = none := rfl
  unfold parse_az_el
  rw [show line ++ [10] = line ++ 10 :: [] from rfl, splitOnNl_no_nl line [] h]
  rw [show splitOnNl [] = [[]] from rfl]
  cases hp : processLine line <;>
    simp [List.findSome?_cons, h0, hp]

/-- Every byte of a rendered numeric field is ASCII, is not `P` (0x50) and is
not a newline. -/
theorem bytes_bounded {n : RawNum} (hi : ∀ b ∈ n.ints, b < 10)
    (hf : ∀ b ∈ n.fracs, b < 10) : ∀ b ∈ n.bytes, b < 128 ∧ b ≠ 80 ∧ b ≠ 10 := by
  obtain ⟨neg, ints, fracs⟩ := n
  intro b hb
  simp only at hi hf
  simp only [RawNum.bytes] at hb
  rcases List.mem_append.mp hb with h | hD
  · rcases List.mem_append.mp h with h2 | hC
    · rcases List.mem_append.mp h2 with hA | hB
      · cases neg with
        | true =>
            rw [if_pos rfl] at hA
            simp only [List.mem_singleton] at hA
            omega
        | false => simp at hA
      · obtain ⟨d, hd, rfl⟩ := List.mem_map.mp hB
        have := hi d hd
        omega
    · simp only [List.mem_singleton] at hC
      omega
  · obtain ⟨d, hd, rfl⟩ := List.mem_map.mp hD
    have := hf d hd
    omega

/-- The line part of a well-formed frame (everything before its final
newline) contains no newline byte. -/
theorem core_no_nl (e a : RawNum) (hei : ∀ b ∈ e.ints, b < 10)
    (hef : ∀ b ∈ e.fracs, b < 10) (hai : ∀ b ∈ a.ints, b < 10)
    (haf : ∀ b ∈ a.fracs, b < 10) :
    10 ∉ posElLit ++ (e.bytes ++ (azLit ++ (a.bytes ++ [32, 13]))) := by
  intro hmem
  simp only [List.mem_append] at hmem
  rcases hmem with h | h | h | h | h
  · exact absurd h (by decide)
  · exact absurd rfl (bytes_bounded hei hef 10 h).2.2
  · exact absurd h (by decide)
  · exact absurd rfl (bytes_bounded hai haf 10 h).2.2
  · exact absurd h (by decide)

/-- The line part of a well-formed frame is all ASCII. -/
theorem core_ascii (e a : RawNum) (hei : ∀ b ∈ e.ints, b < 10)
    (hef : ∀ b ∈ e.fracs, b < 10) (hai : ∀ b ∈ a.ints, b < 10)
    (haf : ∀ b ∈ a.fracs, b < 10) :
    (posElLit ++ (e.bytes ++ (azLit ++ (a.bytes ++ [32, 13])))).all
      (fun b => b < 128) = true := by
  rw [List.all_eq_true]
  intro b hb
  simp only [List.mem_append] at hb
  simp only [decide_eq_true_eq]
  rcases hb with h | h | h | h | h
  · have : b ∈ posElLit := h
    fin_cases this <;> omega
  · exact (bytes_bounded hei hef b h).1
  · have : b ∈ azLit := h
    fin_cases this <;> omega
  · exact (bytes_bounded hai haf b h).1
  · have : b ∈ ([32, 13] : List ℕ) := h
    fin_cases this <;> omega

/-- The `groupVal` of the regex groups of a two-decimal field is the field's
value. -/
theorem groupVal_eq_val (n : RawNum) {f1 f2 : ℕ} (hf : n.fracs = [f1, f2]) :
    groupVal n.neg n.ints f1 f2 = n.val := by
  rw [show n = ⟨n.neg, n.ints, n.fracs⟩ from rfl, hf]
  simp only [RawNum.val, groupVal, List.foldl_cons, List.foldl_nil, List.length_cons,
    List.length_nil]
  norm_num

/-- The per-line processing of a well-formed frame's line yields the frame's
azimuth and elevation. -/
theorem processLine_frame (e a : RawNum) (he : e.wf) (ha : a.wf) :
    processLine (posElLit ++ (e.bytes ++ (azLit ++ (a.bytes ++ [32, 13])))) =
      some ⟨a.val, e.val⟩ := by
  obtain ⟨he1, he2, he3, he4, he5⟩ := he
  obtain ⟨ha1, ha2, ha3, ha4, ha5⟩ := ha
  obtain ⟨af1, af2, haf⟩ := List.length_eq_two.mp ha5
  have haf1 : af1 < 10 := ha4 af1 (by rw [haf]; exact List.mem_cons_self _ _)
  have haf2 : af2 < 10 := ha4 af2 (by rw [haf]; simp)
  have hab : a.bytes = RawNum.bytes ⟨a.neg, a.ints, af1 :: af2 :: []⟩ := by
    rw [show a = ⟨a.neg, a.ints, a.fracs⟩ from rfl] at haf ⊢
    rw [haf]
  rw [processLine_pos _ (core_ascii e a he3 he4 ha3 ha4)]
  have hm := matchAzEl_ok e ⟨he1, he2, he3, he4, he5⟩ a.neg a.ints af1 af2 []
    ⟨ha1, ha2, ha3⟩ haf1 haf2 [32, 13]
  rw [← hab] at hm
  rw [searchAzEl_of_match hm, groupVal_eq_val a haf]

/-- Claim C2 (amended): the telemetry parser is a total function into an
optional reading (all decode and conversion failures are skips, never
errors); a buffer that contains a well-formed frame starting at a line
boundary, with no later line containing regex-matching text, parses to that
frame's azimuth and elevation; and the parser returns `none` exactly when no
line of the buffer yields a reading.  (The unamended claim — that the values
always come from the last *well-formed* frame — fails: a trailing truncated
frame that already contains both numeric fields wins over it, see the
counterexample.) -/
theorem parse_az_el_amended :
    (∀ (pre suf : List ℕ) (e a : RawNum), e.wf → a.wf →
        (pre = [] ∨ pre.getLast? = some 10) →
        (∀ l ∈ splitOnNl suf, processLine l = none) →
        parse_az_el (pre ++ (frameBytes e a ++ suf)) = some ⟨a.val, e.val⟩) ∧
    (∀ data : List ℕ, parse_az_el data = none ↔
        ∀ l ∈ splitOnNl data, processLine l = none) := by
  constructor
  · intro pre suf e a he ha hpre hsuf
    have h10 : 10 ∉ posElLit ++ (e.bytes ++ (azLit ++ (a.bytes ++ [32, 13]))) :=
      core_no_nl e a he.2.2.1 he.2.2.2.1 ha.2.2.1 ha.2.2.2.1
    have hframe : pre ++ (frameBytes e a ++ suf) =
        pre ++ ((posElLit ++ (e.bytes ++ (azLit ++ (a.bytes ++ [32, 13])))) ++ 10 :: suf) := by
      simp [frameBytes]
    obtain ⟨S, hsplit⟩ : ∃ S, splitOnNl (pre ++
        ((posElLit ++ (e.bytes ++ (azLit ++ (a.bytes ++ [32, 13])))) ++ 10 :: suf)) =
        S ++ ((posElLit ++ (e.bytes ++ (azLit ++ (a.bytes ++ [32, 13])))) :: splitOnNl suf) := by
      rcases hpre with rfl | hlast
      · rw [List.nil_append, splitOnNl_no_nl _ suf h10]
        exact ⟨[], rfl⟩
      · obtain ⟨pp, rfl⟩ := List.getLast?_eq_some_iff.mp hlast
        rw [show (pp ++ [10]) ++
            ((posElLit ++ (e.bytes ++ (azLit ++ (a.bytes ++ [32, 13])))) ++ 10 :: suf) =
            pp ++ 10 :: ((posElLit ++ (e.bytes ++ (azLit ++ (a.bytes ++ [32, 13])))) ++ 10 :: suf)
          from by simp]
        obtain ⟨S, _, hEq⟩ := splitOnNl_append_exists pp
          ((posElLit ++ (e.bytes ++ (azLit ++ (a.bytes ++ [32, 13])))) ++ 10 :: suf)
        rw [hEq, splitOnNl_no_nl _ suf h10]
        exact ⟨S, rfl⟩
    unfold parse_az_el
    rw [hframe, hsplit, List.reverse_append, List.reverse_cons]
    rw [show ((splitOnNl suf).reverse ++
        [posElLit ++ (e.bytes ++ (azLit ++ (a.bytes ++ [32, 13])))]) ++ S.reverse =
        (splitOnNl suf).reverse ++
          ((posElLit ++ (e.bytes ++ (azLit ++ (a.bytes ++ [32, 13])))) :: S.reverse)
      from by simp]
    rw [findSome?_append_none _ _ _ (fun l hl => hsuf l (List.mem_reverse.mp hl))]
    rw [List.findSome?_cons, processLine_frame e a he ha]
  · intro data
    unfold parse_az_el
    rw [List.findSome?_eq_none_iff]
    constructor
    · intro h l hl
      exact h l (List.mem_reverse.mpr hl)
    · intro h l hl
      exact h l (List.mem_reverse.mp hl)

/-- Witness for the amended C2 at the concrete frame
`"Pos= El: -0.03 , Az: 236.66 \r\n"` with empty garbage. -/
theorem parse_az_el_amended_wit :
    parse_az_el ([] ++ (frameBytes ⟨true, [0], [0, 3]⟩ ⟨false, [2, 3, 6], [6, 6]⟩ ++ [])) =
      some ⟨RawNum.val ⟨false, [2, 3, 6], [6, 6]⟩, RawNum.val ⟨true, [0], [0, 3]⟩⟩ :=
  parse_az_el_amended.1 [] [] ⟨true, [0], [0, 3]⟩ ⟨false, [2, 3, 6], [6, 6]⟩
    (by decide) (by decide) (Or.inl rfl) (by decide)

/-- A buffer containing a well-formed frame contains a newline byte. -/
theorem ContainsFrame_has_nl {l : List ℕ} (h : ContainsFrame l) : 10 ∈ l := by
  obtain ⟨pre, e, a, suf, _, _, rfl⟩ := h
  refine List.mem_append.mpr (Or.inl (List.mem_append.mpr (Or.inr ?_)))
  unfold frameBytes
  refine List.mem_append.mpr (Or.inr ?_)
  decide

/-- A newline-free buffer is a single line. -/
theorem splitOnNl_all (l : List ℕ) (h : 10 ∉ l) : splitOnNl l = [l] := by
  induction l with
  | nil => rfl
  | cons b bs ih =>
      have hb : ¬ (b = 10) := fun hc => h (hc ▸ List.mem_cons_self b bs)
      rw [splitOnNl, if_neg hb, ih (fun hm => h (List.mem_cons_of_mem _ hm))]

/-- The truncated-frame tail of the C2 counterexample:
`"Pos= El: 9.99 , Az: 8.88"` with no terminator. -/
def cexTail : List ℕ :=
  posElLit ++ (RawNum.bytes ⟨false, [9], [9, 9]⟩ ++ (azLit ++
    (RawNum.bytes ⟨false, [8], [8, 8]⟩ ++ [])))

/-- The C2 counterexample buffer: a well-formed frame
`"Pos= El: 1.00 , Az: 2.00 \r\n"` followed by the truncated frame. -/
def cexData : List ℕ :=
  frameBytes ⟨false, [1], [0, 0]⟩ ⟨false, [2], [0, 0]⟩ ++ cexTail

/-- Claim C2 (counterexample): a buffer whose last well-formed frame reads
`(az, el) = (2.00, 1.00)`, followed by a truncated frame
`"Pos= El: 9.99 , Az: 8.88"` (no terminator, hence not a well-formed frame —
the tail contains no well-formed frame at all), parses to the truncated
frame's values `(8.88, 9.99)`, not to the last well-formed frame's values. -/
theorem parse_az_el_cex :
    parse_az_el cexData = some ⟨222 / 25, 999 / 100⟩ ∧
    cexData = frameBytes ⟨false, [1], [0, 0]⟩ ⟨false, [2], [0, 0]⟩ ++ cexTail ∧
    RawNum.wf ⟨false, [1], [0, 0]⟩ ∧ RawNum.wf ⟨false, [2], [0, 0]⟩ ∧
    ¬ ContainsFrame cexTail ∧
    RawNum.val ⟨false, [2], [0, 0]⟩ = 2 ∧ RawNum.val ⟨false, [1], [0, 0]⟩ = 1 ∧
    AzEl.mk (222 / 25) (999 / 100) ≠ AzEl.mk 2 1 := by
  refine ⟨?_, rfl, by decide, by decide,
    fun h => absurd (ContainsFrame_has_nl h) (by decide), ?_, ?_, ?_⟩
  · have hTail : processLine cexTail =
        some ⟨groupVal false [8] 8 8, RawNum.val ⟨false, [9], [9, 9]⟩⟩ := by
      unfold cexTail
      rw [processLine_pos _ (by decide)]
      exact searchAzEl_of_match
        (matchAzEl_ok ⟨false, [9], [9, 9]⟩ (by decide) false [8] 8 8 []
          (by decide) (by decide) (by decide) [])
    have hdata : cexData =
        (posElLit ++ (RawNum.bytes ⟨false, [1], [0, 0]⟩ ++ (azLit ++
          (RawNum.bytes ⟨false, [2], [0, 0]⟩ ++ [32, 13])))) ++ 10 :: cexTail := by
      decide
    rw [hdata]
    unfold parse_az_el
    rw [splitOnNl_no_nl _ _ (by decide), splitOnNl_all cexTail (by decide)]
    rw [show ∀ x y : List ℕ, ([x, y] : List (List ℕ)).reverse = [y, x] from
      fun x y => rfl]
    rw [List.findSome?_cons, hTail]
    norm_num [groupVal, RawNum.val]
  · norm_num [RawNum.val]
  · norm_num [RawNum.val]
  · intro h
    rw [AzEl.mk.injEq] at h
    norm_num at h

/-- The bytes after the leading `P` of a telemetry line (well-formed or not,
as long as all digit entries are digit values) never contain another `P`. -/
theorem core_tail_no80 (e a : RawNum) (hei : ∀ b ∈ e.ints, b < 10)
    (hef : ∀ b ∈ e.fracs, b < 10) (hai : ∀ b ∈ a.ints, b < 10)
    (haf : ∀ b ∈ a.fracs, b < 10) :
    ∀ b ∈ (posElLit ++ (e.bytes ++ (azLit ++ (a.bytes ++ [32, 13])))).tail, b ≠ 80 := by
  intro b hb
  rw [show posElLit ++ (e.bytes ++ (azLit ++ (a.bytes ++ [32, 13]))) =
      80 :: ([111, 115, 61, 32, 69, 108, 58, 32] ++
        (e.bytes ++ (azLit ++ (a.bytes ++ [32, 13])))) from rfl] at hb
  simp only [List.tail_cons] at hb
  rcases List.mem_append.mp hb with h | h
  · fin_cases h <;> omega
  rcases List.mem_append.mp h with h | h
  · exact (bytes_bounded hei hef b h).2.1
  rcases List.mem_append.mp h with h | h
  · fin_cases h <;> omega
  rcases List.mem_append.mp h with h | h
  · exact (bytes_bounded hai haf b h).2.1
  · fin_cases h <;> omega

/-- A single telemetry line on which the anchored match fails parses to
nothing (the search cannot succeed at a later position either, since there is
no later `"Pos"`). -/
theorem parse_line_none (e a : RawNum) (hei : ∀ b ∈ e.ints, b < 10)
    (hef : ∀ b ∈ e.fracs, b < 10) (hai : ∀ b ∈ a.ints, b < 10)
    (haf : ∀ b ∈ a.fracs, b < 10)
    (hm : matchAzEl (posElLit ++ (e.bytes ++ (azLit ++ (a.bytes ++ [32, 13])))) = none) :
    parse_az_el ((posElLit ++ (e.bytes ++ (azLit ++ (a.bytes ++ [32, 13])))) ++ [10]) =
      none := by
  rw [parse_single_line _ (core_no_nl e a hei hef hai haf)]
  exact processLine_pos_none _
    (searchAzEl_none_of_tail _ hm (core_tail_no80 e a hei hef hai haf))

/-- Claim C8 (amended): the strict regex enforces exactly two decimal digits
on the elevation field — a line whose elevation field has more or fewer than
two digits after the dot is rejected — and at least two on the azimuth field:
fewer than two azimuth decimals are rejected, but an azimuth field with more
than two decimals still matches, the value being read from the first two
decimal digits only (the regex ends at the azimuth group, so trailing digits
are not inspected). -/
theorem parse_decimals_amended :
    (∀ el az : RawNum, intsOk el.ints → (∀ b ∈ el.fracs, b < 10) →
        el.fracs.length ≠ 2 → az.wf →
        parse_az_el ((posElLit ++ (el.bytes ++ (azLit ++ (az.bytes ++ [32, 13])))) ++ [10]) =
          none) ∧
    (∀ el az : RawNum, el.wf → intsOk az.ints → (∀ b ∈ az.fracs, b < 10) →
        az.fracs.length < 2 →
        parse_az_el ((posElLit ++ (el.bytes ++ (azLit ++ (az.bytes ++ [32, 13])))) ++ [10]) =
          none) ∧
    (∀ (el : RawNum) (aneg : Bool) (aints : List ℕ) (f1 f2 : ℕ) (fr : List ℕ),
        el.wf → intsOk aints → f1 < 10 → f2 < 10 → (∀ b ∈ fr, b < 10) →
        parse_az_el ((posElLit ++ (el.bytes ++ (azLit ++
            (RawNum.bytes ⟨aneg, aints, f1 :: f2 :: fr⟩ ++ [32, 13])))) ++ [10]) =
          some ⟨groupVal aneg aints f1 f2, el.val⟩) := by
  refine ⟨?_, ?_, ?_⟩
  · intro el az hio hfr hlen haz
    apply parse_line_none el az hio.2.2 hfr haz.2.2.1 haz.2.2.2.1
    have hel : el = ⟨el.neg, el.ints, el.fracs⟩ := rfl
    match hfx : el.fracs, hlen, hfr with
    | [], _, _ =>
        rw [hel, hfx]
        exact matchAzEl_fail_el_short el.neg el.ints [] hio (by simp) (by simp) _
    | [f], _, hfr =>
        rw [hel, hfx]
        exact matchAzEl_fail_el_short el.neg el.ints [f] hio (by simpa using hfr)
          (by simp) _
    | f1 :: f2 :: f3 :: fr, _, hfr =>
        rw [hel, hfx]
        exact matchAzEl_fail_el_long el.neg el.ints f1 f2 f3 fr hio
          (hfr f1 (by simp)) (hfr f2 (by simp)) (hfr f3 (by simp)) _
  · intro el az hel hio hfr hlen
    apply parse_line_none el az hel.2.2.1 hel.2.2.2.1 hio.2.2 hfr
    have haz : az = ⟨az.neg, az.ints, az.fracs⟩ := rfl
    rw [haz]
    exact matchAzEl_fail_az_short el hel az.neg az.ints az.fracs hio hfr hlen
  · intro el aneg aints f1 f2 fr hel hio hf1 hf2 hfr
    have hbound : ∀ b ∈ ({ neg := aneg, ints := aints, fracs := f1 :: f2 :: fr } :
        RawNum).fracs, b < 10 := by
      intro b hb
      simp only [List.mem_cons] at hb
      rcases hb with rfl | rfl | hb
      · exact hf1
      · exact hf2
      · exact hfr b hb
    have hno_nl : 10 ∉ posElLit ++ (el.bytes ++ (azLit ++
        (RawNum.bytes ⟨aneg, aints, f1 :: f2 :: fr⟩ ++ [32, 13]))) :=
      core_no_nl el ⟨aneg, aints, f1 :: f2 :: fr⟩ hel.2.2.1 hel.2.2.2.1 hio.2.2 hbound
    rw [parse_single_line _ hno_nl]
    rw [processLine_pos _ (core_ascii el ⟨aneg, aints, f1 :: f2 :: fr⟩
      hel.2.2.1 hel.2.2.2.1 hio.2.2 hbound)]
    exact searchAzEl_of_match (matchAzEl_ok el hel aneg aints f1 f2 fr hio hf1 hf2 [32, 13])

/-- Claim C8 (counterexample): the line `"Pos= El: -0.50 , Az: 1.234 \r\n"`,
whose azimuth field carries three digits after the decimal point, is not
rejected: the parser extracts azimuth 1.23 (and elevation −0.50) from it. -/
theorem parse_decimals_cex :
    (RawNum.fracs ⟨false, [1], [2, 3, 4]⟩).length = 3 ∧
    parse_az_el ((posElLit ++ (RawNum.bytes ⟨true, [0], [5, 0]⟩ ++ (azLit ++
        (RawNum.bytes ⟨false, [1], [2, 3, 4]⟩ ++ [32, 13])))) ++ [10]) =
      some ⟨123 / 100, -(1 / 2)⟩ := by
  refine ⟨rfl, ?_⟩
  rw [parse_single_line _ (core_no_nl ⟨true, [0], [5, 0]⟩ ⟨false, [1], [2, 3, 4]⟩
    (by decide) (by decide) (by decide) (by decide))]
  rw [processLine_pos _ (core_ascii ⟨true, [0], [5, 0]⟩ ⟨false, [1], [2, 3, 4]⟩
    (by decide) (by decide) (by decide) (by decide))]
  rw [searchAzEl_of_match (matchAzEl_ok ⟨true, [0], [5, 0]⟩ (by decide) false [1] 2 3 [4]
    (by decide) (by decide) (by decide) [32, 13])]
  norm_num [groupVal, RawNum.val]

/-- Witness for the amended C8: a one-decimal elevation line and a
one-decimal azimuth line are rejected; a three-decimal azimuth line yields
the value truncated to two decimals. -/
theorem parse_decimals_amended_wit :
    parse_az_el ((posElLit ++ (RawNum.bytes ⟨false, [1], [5]⟩ ++ (azLit ++
        (RawNum.bytes ⟨false, [2], [0, 0]⟩ ++ [32, 13])))) ++ [10]) = none ∧
    parse_az_el ((posElLit ++ (RawNum.bytes ⟨false, [1], [5, 0]⟩ ++ (azLit ++
        (RawNum.bytes ⟨false, [2], [7]⟩ ++ [32, 13])))) ++ [10]) = none ∧
    parse_az_el ((posElLit ++ (RawNum.bytes ⟨false, [1], [5, 0]⟩ ++ (azLit ++
        (RawNum.bytes ⟨false, [2], [7, 8, 9]⟩ ++ [32, 13])))) ++ [10]) =
      some ⟨groupVal false [2] 7 8, RawNum.val ⟨false, [1], [5, 0]⟩⟩ :=
  ⟨parse_decimals_amended.1 ⟨false, [1], [5]⟩ ⟨false, [2], [0, 0]⟩
      (by decide) (by decide) (by decide) (by decide),
   parse_decimals_amended.2.1 ⟨false, [1], [5, 0]⟩ ⟨false, [2], [7]⟩
      (by decide) (by decide) (by decide) (by decide),
   parse_decimals_amended.2.2 ⟨false, [1], [5, 0]⟩ false [2] 7 8 []
      (by decide) (by decide) (by decide) (by decide) (by decide)⟩

/-! ## Coordinate constructors: neutral-elevation additivity

Embedding of the elevation bookkeeping of the three `Coordinate` constructors
in `src/msu_anechoic/util/coordinate.py`.  Each constructor relates
`turntable_elevation` and `absolute_turntable_elevation` by one addition or
subtraction of `neutral_elevation`; the azimuths and the `_turntable_to_antenna`
trigonometric conversion play no part in the claimed identity (for
`from_antenna`, the tilt produced by `_antenna_to_turntable` enters only as an
opaque input, so it is a parameter here).

Python floats are IEEE binary64.  `fl64` models the rounding of one binary64
arithmetic operation: round-to-nearest, ties-to-even, with a 53-bit
significand and unbounded exponent (no overflow/subnormals, which is faithful
for the magnitudes involved here). -/

/-- Round a rational to the nearest binary64-representable value
(round-to-nearest, ties-to-even, 53-bit significand, unbounded exponent). -/
def fl64 (q : ℚ) : ℚ :=
  if q = 0 then 0
  else
    let x : ℚ := |q|
    let e : ℤ := Int.log 2 x
    let m : ℚ := x * (2 : ℚ) ^ ((52 : ℤ) - e)
    let n0 : ℤ := ⌊m⌋
    let n1 : ℤ :=
      if m - (n0 : ℚ) < 1 / 2 then n0
      else if 1 / 2 < m - (n0 : ℚ) then n0 + 1
      else if n0 % 2 = 0 then n0 else n0 + 1
    (if q < 0 then -1 else 1) * (n1 : ℚ) * (2 : ℚ) ^ (e - 52)

/-- The elevation pair `(turntable_elevation, absolute_turntable_elevation)`
produced by `Coordinate.from_turntable`, in exact arithmetic:
`absolute = elevation + neutral_elevation`. -/
def from_turntable_els (elevation neutral_elevation : ℚ) : ℚ × ℚ :=
  (elevation, elevation + neutral_elevation)

/-- The elevation pair produced by `Coordinate.from_absolute_turntable`:
`turntable = elevation - neutral_elevation`. -/
def from_absolute_turntable_els (elevation neutral_elevation : ℚ) : ℚ × ℚ :=
  (elevation - neutral_elevation, elevation)

/-- The elevation pair produced by `Coordinate.from_antenna`, whose
`turntable_elevation` comes from the `_antenna_to_turntable` trigonometric
conversion (taken here as the opaque input `tt_elevation`):
`absolute = tt_elevation + neutral_elevation`. -/
def from_antenna_els (tt_elevation neutral_elevation : ℚ) : ℚ × ℚ :=
  (tt_elevation, tt_elevation + neutral_elevation)

/-- The elevation pair of `Coordinate.from_turntable` under binary64
arithmetic: the stored `absolute_turntable_elevation` is the rounded sum. -/
def from_turntable_els64 (elevation neutral_elevation : ℚ) : ℚ × ℚ :=
  (elevation, fl64 (elevation + neutral_elevation))

/-- Determination of `Int.log 2` from a bracketing pair of powers. -/
theorem log2_eq {x : ℚ} {e : ℤ} (hx : 0 < x) (h1 : (2 : ℚ) ^ e ≤ x)
    (h2 : x < (2 : ℚ) ^ (e + 1)) : Int.log 2 x = e := by
  have ha : e ≤ Int.log 2 x := (Int.zpow_le_iff_le_log (by norm_num) hx).mp (by exact_mod_cast h1)
  have hb : Int.log 2 x < e + 1 := (Int.lt_zpow_iff_log_lt (by norm_num) hx).mp (by exact_mod_cast h2)
  omega

/-- Closed-form evaluation of `fl64` on a positive rational once its exponent,
floor and rounding decision are known. -/
theorem fl64_eval (x : ℚ) (e n0 n1 : ℤ) (hx : 0 < x)
    (hlog : Int.log 2 x = e)
    (hn0 : ⌊x * (2 : ℚ) ^ ((52 : ℤ) - e)⌋ = n0)
    (hn1 : (if x * (2 : ℚ) ^ ((52 : ℤ) - e) - (n0 : ℚ) < 1 / 2 then n0
        else if 1 / 2 < x * (2 : ℚ) ^ ((52 : ℤ) - e) - (n0 : ℚ) then n0 + 1
        else if n0 % 2 = 0 then n0 else n0 + 1) = n1) :
    fl64 x = (n1 : ℚ) * (2 : ℚ) ^ (e - 52) := by
  rw [fl64, if_neg (ne_of_gt hx)]
  simp only [abs_of_pos hx, hlog, hn0, hn1, if_neg (not_lt.mpr (le_of_lt hx))]
  ring

/-- The binary64 value nearest 0.1 (`float("0.1")` in Python). -/
def q01 : ℚ := 3602879701896397 / 2 ^ 55

/-- The binary64 value nearest 0.2 (`float("0.2")` in Python). -/
def q02 : ℚ := 3602879701896397 / 2 ^ 54

/-- Claim C9 (counterexample): under IEEE binary64 arithmetic (Python floats),
`from_turntable` with `elevation = 0.1` and `neutral_elevation = 0.2` yields
`absolute_turntable_elevation - turntable_elevation != neutral_elevation`:
the rounding of `0.1 + 0.2` makes the difference `0.20000000000000004`, one
ulp away from `0.2`, so the claimed bit-for-bit equality fails. -/
theorem neutral_additivity_cex :
    fl64 ((from_turntable_els64 q01 q02).2 - (from_turntable_els64 q01 q02).1) ≠ q02 := by
  have hsum : q01 + q02 = 10808639105689191 / 2 ^ 55 := by norm_num [q01, q02]
  have hlog1 : Int.log 2 ((10808639105689191 : ℚ) / 2 ^ 55) = -2 :=
    log2_eq (by norm_num) (by norm_num) (by norm_num)
  have hfloor1 : ⌊((10808639105689191 : ℚ) / 2 ^ 55) * (2 : ℚ) ^ ((52 : ℤ) - (-2))⌋ =
      5404319552844595 := by
    rw [Int.floor_eq_iff]
    constructor <;> norm_num
  have hfl1 : fl64 ((10808639105689191 : ℚ) / 2 ^ 55) =
      (5404319552844596 : ℚ) * (2 : ℚ) ^ ((-2 : ℤ) - 52) := by
    refine fl64_eval _ (-2) 5404319552844595 5404319552844596 (by norm_num) hlog1 hfloor1 ?_
    rw [if_neg (by norm_num), if_neg (by norm_num), if_neg (by norm_num)]
    norm_num
  have hdiff : (5404319552844596 : ℚ) * (2 : ℚ) ^ ((-2 : ℤ) - 52) - q01 =
      7205759403792795 / 2 ^ 55 := by
    norm_num [q01]
  have hlog2 : Int.log 2 ((7205759403792795 : ℚ) / 2 ^ 55) = -3 :=
    log2_eq (by norm_num) (by norm_num) (by norm_num)
  have hfloor2 : ⌊((7205759403792795 : ℚ) / 2 ^ 55) * (2 : ℚ) ^ ((52 : ℤ) - (-3))⌋ =
      7205759403792795 := by
    rw [Int.floor_eq_iff]
    constructor <;> norm_num
  have hfl2 : fl64 ((7205759403792795 : ℚ) / 2 ^ 55) =
      (7205759403792795 : ℚ) * (2 : ℚ) ^ ((-3 : ℤ) - 52) := by
    refine fl64_eval _ (-3) 7205759403792795 7205759403792795 (by norm_num) hlog2 hfloor2 ?_
    rw [if_pos (by norm_num)]
  show fl64 (fl64 (q01 + q02) - q01) ≠ q02
  rw [hsum, hfl1, hdiff, hfl2]
  norm_num [q02]

/-- Claim C9 (amended): in exact arithmetic, every one of the three
`Coordinate` constructors satisfies
`absolute_turntable_elevation - turntable_elevation = neutral_elevation` for
all inputs (for `from_antenna`, relative to the tilt produced by the
trigonometric conversion); the unamended bit-for-bit float claim fails under
binary64 rounding (see the counterexample). -/
theorem neutral_additivity_amended :
    (∀ el n : ℚ, (from_turntable_els el n).2 - (from_turntable_els el n).1 = n) ∧
    (∀ el n : ℚ, (from_absolute_turntable_els el n).2 -
      (from_absolute_turntable_els el n).1 = n) ∧
    (∀ tt n : ℚ, (from_antenna_els tt n).2 - (from_antenna_els tt n).1 = n) := by
  refine ⟨fun el n => ?_, fun el n => ?_, fun tt n => ?_⟩
  · simp [from_turntable_els]
  · simp [from_absolute_turntable_els]
  · simp [from_antenna_els]

/-! ## The turntable controller

Embedding of the `Turntable` class of `src/msu_anechoic/turn_table.py` as a
state-passing step machine:

* the session state carries `has_been_set`, `_current_regime`,
  `_regime_elevation_offset` and `most_recent_communication_time` exactly as
  the instance attributes do, plus the constructor argument
  `neutral_elevation`;
* `time.monotonic()` is modelled as a clock `now` frozen for the duration of a
  call (all operations are instantaneous); `time.sleep` is a no-op;
* the serial read-and-parse pipeline (`attempt_read` + `parse_az_el`) is
  abstracted as an oracle `telem`, the list of successive results of
  `_get_within_regime_position`'s read attempts;
* every frame written to the serial transport is appended to `writes`;
* Python exceptions are `Outcome.err`, and the unbounded polling loops take
  fuel, `Outcome.spin` meaning the fuel ran out while the loop was still
  polling;
* `get_position` returns the turntable-frame azimuth/elevation pair; the
  `Coordinate.from_turntable` wrapper it builds in the source adds
  trigonometry-derived antenna fields that no control path reads, so they are
  elided. -/

/-- A frame written to the serial transport: `CMD:MOV:<az>,<el>;` or
`CMD:SET:<az>,<el>;` with the numeric payload. -/
inductive Frame where
  | move (azimuth elevation : ℚ)
  | set (azimuth elevation : ℚ)
  deriving DecidableEq

/-- The result of a controller operation: normal return, a raised exception,
or fuel exhaustion inside a polling loop. -/
inductive Outcome (α : Type) where
  | ok (a : α)
  | err (msg : String)
  | spin
  deriving DecidableEq

/-- The mutable state of a `Turntable` instance, together with the frozen
clock, the telemetry oracle and the transport trace. -/
structure TTState where
  has_been_set : Bool
  current_regime : Option TurnTableElevationRegime
  regime_elevation_offset : Option ℚ
  most_recent_communication_time : ℚ
  neutral_elevation : ℚ
  now : ℚ
  telem : List (Option AzEl)
  writes : List Frame
  deriving DecidableEq

/-- `ALLOWABLE_DISCREPANCY_DEG = 0.11`. -/
def ALLOWABLE_DISCREPANCY_DEG : ℚ := 11 / 100

/-- `Turntable.DEAD_TIME = 1000.0` seconds. -/
def DEAD_TIME : ℚ := 1000

/-- `Turntable.time_since_last_communication`. -/
def time_since_last_communication (s : TTState) : ℚ :=
  s.now - s.most_recent_communication_time

/-- `Turntable._convert_to_regime_elevation`: raises when the offset is
unset. -/
def convert_to_regime_elevation (s : TTState) (elevation : ℚ) : Outcome ℚ :=
  match s.regime_elevation_offset with
  | none => .err "offset not set"
  | some off => .ok (elevation - off)

/-- `Turntable._convert_from_regime_elevation`: raises when the offset is
unset. -/
def convert_from_regime_elevation (s : TTState) (elevation : ℚ) : Outcome ℚ :=
  match s.regime_elevation_offset with
  | none => .err "offset not set"
  | some off => .ok (elevation + off)

/-- `Turntable._validate_absolute_bounds`: derive the absolute elevation from
the within-regime one when needed, add `neutral_elevation` when nonzero
(Python truthiness), then check azimuth ∈ [−180, 180] and elevation ∈
[−90, 45], in that order. -/
def abs_elevation_arg (s : TTState)
    (within_regime_elevation absolute_elevation : Option ℚ) : Outcome ℚ :=
  match absolute_elevation with
  | some ae => .ok ae
  | none =>
      match within_regime_elevation with
      | some w => convert_from_regime_elevation s w
      | none => .err "TypeError"

def validate_absolute_bounds (s : TTState) (absolute_azimuth : ℚ)
    (within_regime_elevation absolute_elevation : Option ℚ) : Outcome Bool :=
  match abs_elevation_arg s within_regime_elevation absolute_elevation with
  | .err m => .err m
  | .spin => .spin
  | .ok ae =>
      let ae2 := if s.neutral_elevation = 0 then ae else ae + s.neutral_elevation
      if absolute_azimuth < -180 ∨ 180 < absolute_azimuth then .ok false
      else if ae2 < -90 ∨ 45 < ae2 then .ok false
      else .ok true

/-- The `if within_regime_elevation is None:` prologue of
`_validate_elevation_regime_bounds`. -/
def wre_elevation_arg (s : TTState)
    (absolute_elevation within_regime_elevation : Option ℚ) : Outcome ℚ :=
  match within_regime_elevation with
  | some w => .ok w
  | none =>
      match absolute_elevation with
      | some ae => convert_to_regime_elevation s ae
      | none => .err "unreachable"

/-- `Turntable._validate_elevation_regime_bounds`: argument sanity errors,
then the regime-set check, then the within-regime window
[−29.5, 29.5]. -/
def validate_elevation_regime_bounds (s : TTState)
    (absolute_elevation within_regime_elevation : Option ℚ) : Outcome Bool :=
  match absolute_elevation, within_regime_elevation with
  | none, none => .err "ValueError: must provide one"
  | some _, some _ => .err "ValueError: cannot provide both"
  | _, _ =>
      match s.current_regime with
      | none => .err "RuntimeError: regime not set"
      | some _ =>
          match wre_elevation_arg s absolute_elevation within_regime_elevation with
          | .err m => .err m
          | .spin => .spin
          | .ok w =>
              if -59 / 2 ≤ w ∧ w ≤ 59 / 2 then .ok true else .ok false

/-- `Turntable.validate_move_command`: absolute bounds, then regime bounds,
then staleness (`time_since_last_communication > DEAD_TIME`), then the
`has_been_set` flag.  Pure: it mutates nothing. -/
def validate_move_command (s : TTState) (azimuth : ℚ)
    (absolute_elevation within_regime_elevation : Option ℚ) : Outcome Bool :=
  match validate_absolute_bounds s azimuth within_regime_elevation absolute_elevation with
  | .err m => .err m
  | .spin => .spin
  | .ok false => .ok false
  | .ok true =>
      match validate_elevation_regime_bounds s absolute_elevation within_regime_elevation with
      | .err m => .err m
      | .spin => .spin
      | .ok false => .ok false
      | .ok true =>
          if time_since_last_communication s > DEAD_TIME then .ok false
          else if s.has_been_set = false then .ok false
          else .ok true

/-- `Turntable._validate_open_communication`: when stale, resets
`has_been_set` and `_current_regime` and fails; otherwise succeeds without
touching the state. -/
def validate_open_communication (s : TTState) : Bool × TTState :=
  if time_since_last_communication s > DEAD_TIME then
    (false, { s with has_been_set := false, current_regime := none })
  else (true, s)

/-- `Turntable.validate_set_command`: only `(0, 0)` is valid. -/
def validate_set_command (azimuth elevation : ℚ) : Bool :=
  azimuth = 0 ∧ elevation = 0

/-- `Turntable._get_within_regime_position`: one read-and-parse attempt from
the oracle; a successful parse updates
`most_recent_communication_time` to `now`. -/
def get_within_regime_position (s : TTState) : Option AzEl × TTState :=
  match s.telem with
  | [] => (none, s)
  | r :: rest =>
      match r with
      | none => (none, { s with telem := rest })
      | some p => (some p, { s with telem := rest, most_recent_communication_time := s.now })

/-- `Turntable._wait_for_within_regime_position`: poll until a reading
arrives. -/
def wait_for_within_regime_position : ℕ → TTState → Outcome AzEl × TTState
  | 0, s => (.spin, s)
  | n + 1, s =>
      match get_within_regime_position s with
      | (some p, s2) => (.ok p, s2)
      | (none, s2) => wait_for_within_regime_position n s2

/-- `Turntable.get_position`: one read; when the regime is set, the regime
offset is applied to the reported elevation (raising if the offset is unset);
when it is not set, the raw reading is used as-is (with a warning). -/
def get_position (s : TTState) : Outcome (Option AzEl) × TTState :=
  match get_within_regime_position s with
  | (none, s2) => (.ok none, s2)
  | (some p, s2) =>
      match s2.current_regime with
      | none => (.ok (some p), s2)
      | some _ =>
          match convert_from_regime_elevation s2 p.elevation with
          | .err m => (.err m, s2)
          | .spin => (.spin, s2)
          | .ok el => (.ok (some ⟨p.azimuth, el⟩), s2)

/-- `Turntable.wait_for_position`: poll `get_position` until a reading
arrives. -/
def wait_for_position : ℕ → TTState → Outcome AzEl × TTState
  | 0, s => (.spin, s)
  | n + 1, s =>
      match get_position s with
      | (.ok (some p), s2) => (.ok p, s2)
      | (.ok none, s2) => wait_for_position n s2
      | (.err m, s2) => (.err m, s2)
      | (.spin, s2) => (.spin, s2)

/-- `Turntable._send_move_command`: validate (with the within-regime
elevation), silently skip the write on invalid, write the MOVE frame three
times on valid. -/
def send_move_command (s : TTState) (azimuth elevation : ℚ) : Outcome Unit × TTState :=
  match validate_move_command s azimuth none (some elevation) with
  | .err m => (.err m, s)
  | .spin => (.spin, s)
  | .ok false => (.ok (), s)
  | .ok true =>
      (.ok (), { s with writes := s.writes ++ List.replicate 3 (.move azimuth elevation) })

/-- The confirmation loop of `Turntable.send_set_command`: poll until the
reported position is within `ALLOWABLE_DISCREPANCY_DEG` of the commanded one
on both axes; then set `has_been_set`, and (unless suppressed) recompute the
regime from the reported elevation and default the offset to 0. -/
def send_set_command_loop : ℕ → ℚ → ℚ → Bool → TTState → Outcome AzEl × TTState
  | 0, _, _, _, s => (.spin, s)
  | n + 1, az, el, setRegime, s =>
      match get_within_regime_position s with
      | (none, s2) => send_set_command_loop n az el setRegime s2
      | (some rep, s2) =>
          if |rep.azimuth - az| > ALLOWABLE_DISCREPANCY_DEG then
            send_set_command_loop n az el setRegime s2
          else if |rep.elevation - el| > ALLOWABLE_DISCREPANCY_DEG then
            send_set_command_loop n az el setRegime s2
          else
            let s3 := { s2 with has_been_set := true }
            if setRegime then
              match find_best_regime rep.elevation with
              | none => (.err "ValueError: no regime", s3)
              | some r =>
                  let s4 := { s3 with
                    current_regime := some r,
                    regime_elevation_offset := some (s3.regime_elevation_offset.getD 0) }
                  (.ok ⟨az, el⟩, s4)
            else (.ok ⟨az, el⟩, s3)

/-- `Turntable.send_set_command`: reject anything but `(0, 0)` without
writing; otherwise write the SET frame three times and run the confirmation
loop.  Returns `none` (without error) on rejection, as the source returns
`None`. -/
def send_set_command (fuel : ℕ) (azimuth elevation : ℚ) (setRegime : Bool)
    (s : TTState) : Outcome (Option AzEl) × TTState :=
  if validate_set_command azimuth elevation then
    let s1 := { s with writes := s.writes ++ List.replicate 3 (.set azimuth elevation) }
    match send_set_command_loop fuel azimuth elevation setRegime s1 with
    | (.ok p, s2) => (.ok (some p), s2)
    | (.err m, s2) => (.err m, s2)
    | (.spin, s2) => (.spin, s2)
  else (.ok none, s)

/-- The arrival-polling loop of `Turntable._move_to_within_regime`. -/
def move_to_within_regime_loop : ℕ → ℚ → ℚ → ℚ → ℚ → TTState → Outcome AzEl × TTState
  | 0, _, _, _, _, s => (.spin, s)
  | n + 1, az, wre, azMargin, elMargin, s =>
      match wait_for_within_regime_position (n + 1) s with
      | (.err m, s2) => (.err m, s2)
      | (.spin, s2) => (.spin, s2)
      | (.ok cur, s2) =>
          if |cur.azimuth - az| ≤ azMargin ∧ |cur.elevation - wre| ≤ elMargin then
            (.ok cur, s2)
          else move_to_within_regime_loop n az wre azMargin elMargin s2

/-- `Turntable._move_to_within_regime`: validate (raising `ValueError` on an
invalid command, before anything is transmitted), read a starting position,
send the MOVE frame, and poll until both axes are within their margins. -/
def move_to_within_regime (fuel : ℕ) (az wre azMargin elMargin : ℚ)
    (s : TTState) : Outcome AzEl × TTState :=
  match validate_move_command s az none (some wre) with
  | .err m => (.err m, s)
  | .spin => (.spin, s)
  | .ok false => (.err "ValueError: move invalid, will not be sent", s)
  | .ok true =>
      match wait_for_position fuel s with
      | (.err m, s2) => (.err m, s2)
      | (.spin, s2) => (.spin, s2)
      | (.ok _, s2) =>
          match send_move_command s2 az wre with
          | (.err m, s3) => (.err m, s3)
          | (.spin, s3) => (.spin, s3)
          | (.ok _, s3) => move_to_within_regime_loop fuel az wre azMargin elMargin s3

/-- `Turntable.move_to` together with the regime-crossing procedure
`Turntable._move_to_next_regime`, which is inlined in the `else` branch so
that the mutual recursion is structural on the fuel (see
`move_to_next_regime` below for the standalone form and the equation relating
the two).  The loop `while elevation not in self._current_regime` advances one
regime per fuel unit. -/
def move_to : ℕ → ℚ → ℚ → ℚ → ℚ → TTState → Outcome AzEl × TTState
  | 0, _, _, _, _, s => (.spin, s)
  | n + 1, az, el, azM, elM, s =>
      match s.current_regime with
      | none => (.err "RuntimeError: regime not set", s)
      | some r =>
          if r.is_in_allowable_range el then
            match convert_to_regime_elevation s el with
            | .err m => (.err m, s)
            | .spin => (.spin, s)
            | .ok wre => move_to_within_regime (n + 1) az wre azM elM s
          else
            match
              -- start of the inlined `_move_to_next_regime` body
              match s.current_regime with
              | none => ((.err "AssertionError: regime not set" : Outcome Unit), s)
              | some cur =>
                  match find_next_regime el cur with
                  | none => (.err "IndexError", s)
                  | some next =>
                      if ¬ (cur.is_in_allowable_range next.center_angle) then
                        (.err "AssertionError: waypoint outside current regime", s)
                      else
                        match move_to n az next.center_angle azM elM s with
                        | (.err m, s2) => (.err m, s2)
                        | (.spin, s2) => (.spin, s2)
                        | (.ok _, s2) =>
                            match wait_for_within_regime_position n s2 with
                            | (.err m, s3) => (.err m, s3)
                            | (.spin, s3) => (.spin, s3)
                            | (.ok wrp, s3) =>
                                match convert_from_regime_elevation s3 wrp.elevation with
                                | .err m => (.err m, s3)
                                | .spin => (.spin, s3)
                                | .ok realEl =>
                                    if ¬ (cur.is_in_allowable_range realEl) then
                                      (.err "AssertionError: not in old regime", s3)
                                    else if ¬ (next.is_in_allowable_range realEl) then
                                      (.err "AssertionError: not in next regime", s3)
                                    else
                                      let newOff : ℚ :=
                                        match s3.regime_elevation_offset with
                                        | none => wrp.elevation
                                        | some off => off + wrp.elevation
                                      let s4 := { s3 with
                                        regime_elevation_offset := some newOff }
                                      match send_set_command n az 0 false s4 with
                                      | (.err m, s5) => (.err m, s5)
                                      | (.spin, s5) => (.spin, s5)
                                      | (.ok _, s5) =>
                                          (.ok (), { s5 with current_regime := some next })
              -- end of the inlined `_move_to_next_regime` body
            with
            | (.ok _, s2) => move_to n az el azM elM s2
            | (.err m, s2) => (.err m, s2)
            | (.spin, s2) => (.spin, s2)

/-- `Turntable._move_to_next_regime`, standalone: assert the regime is set,
find the neighbouring regime toward the destination, assert its center lies
in the current window, move there (a full `move_to`), read the raw position
at the waypoint, sanity-check it against both windows (fatal assertion
otherwise), accumulate the raw reading into the regime offset, re-home with
`send_set_command(azimuth, 0, _set_regime=False)` (which, given the hardened
`(0,0)`-only validation, silently does nothing whenever `azimuth ≠ 0`), and
advance the current regime. -/
def move_to_next_regime (fuel : ℕ) (az el azM elM : ℚ) (s : TTState) :
    Outcome Unit × TTState :=
  match s.current_regime with
  | none => (.err "AssertionError: regime not set", s)
  | some cur =>
      match find_next_regime el cur with
      | none => (.err "IndexError", s)
      | some next =>
          if ¬ (cur.is_in_allowable_range next.center_angle) then
            (.err "AssertionError: waypoint outside current regime", s)
          else
            match move_to fuel az next.center_angle azM elM s with
            | (.err m, s2) => (.err m, s2)
            | (.spin, s2) => (.spin, s2)
            | (.ok _, s2) =>
                match wait_for_within_regime_position fuel s2 with
                | (.err m, s3) => (.err m, s3)
                | (.spin, s3) => (.spin, s3)
                | (.ok wrp, s3) =>
                    match convert_from_regime_elevation s3 wrp.elevation with
                    | .err m => (.err m, s3)
                    | .spin => (.spin, s3)
                    | .ok realEl =>
                        if ¬ (cur.is_in_allowable_range realEl) then
                          (.err "AssertionError: not in old regime", s3)
                        else if ¬ (next.is_in_allowable_range realEl) then
                          (.err "AssertionError: not in next regime", s3)
                        else
                          let newOff : ℚ :=
                            match s3.regime_elevation_offset with
                            | none => wrp.elevation
                            | some off => off + wrp.elevation
                          let s4 := { s3 with
                            regime_elevation_offset := some newOff }
                          match send_set_command fuel az 0 false s4 with
                          | (.err m, s5) => (.err m, s5)
                          | (.spin, s5) => (.spin, s5)
                          | (.ok _, s5) => (.ok (), { s5 with current_regime := some next })

/-- The inlined hop body inside `move_to` is exactly
`move_to_next_regime`. -/
theorem move_to_succ (n : ℕ) (az el azM elM : ℚ) (s : TTState) :
    move_to (n + 1) az el azM elM s =
      match s.current_regime with
      | none => (.err "RuntimeError: regime not set", s)
      | some r =>
          if r.is_in_allowable_range el then
            match convert_to_regime_elevation s el with
            | .err m => (.err m, s)
            | .spin => (.spin, s)
            | .ok wre => move_to_within_regime (n + 1) az wre azM elM s
          else
            match move_to_next_regime n az el azM elM s with
            | (.ok _, s2) => move_to n az el azM elM s2
            | (.err m, s2) => (.err m, s2)
            | (.spin, s2) => (.spin, s2) := rfl

/-- Whether an outcome is a normal return. -/
def Outcome.isOk {α : Type} : Outcome α → Bool
  | .ok _ => true
  | _ => false

/-- A positive absolute-bounds validation entails the azimuth bounds. -/
theorem vab_ok_azimuth {s : TTState} {az : ℚ} {wel ael : Option ℚ}
    (h : validate_absolute_bounds s az wel ael = .ok true) :
    -180 ≤ az ∧ az ≤ 180 := by
  unfold validate_absolute_bounds at h
  cases h2 : abs_elevation_arg s wel ael with
  | err m => rw [h2] at h; exact absurd h (by simp)
  | spin => rw [h2] at h; exact absurd h (by simp)
  | ok ae =>
      rw [h2] at h
      simp only at h
      by_cases haz : az < -180 ∨ 180 < az
      · rw [if_pos haz] at h
        exact absurd h (by simp)
      · push_neg at haz
        exact ⟨haz.1, haz.2⟩

/-- The session flags entailed by a positive move validation: the session is
zeroed, communication is fresh, and the azimuth is in bounds. -/
theorem vmcmd_ok_flags {s : TTState} {az : ℚ} {ael wel : Option ℚ}
    (h : validate_move_command s az ael wel = .ok true) :
    s.has_been_set = true ∧ time_since_last_communication s ≤ DEAD_TIME ∧
      -180 ≤ az ∧ az ≤ 180 := by
  unfold validate_move_command at h
  cases h1 : validate_absolute_bounds s az wel ael with
  | err m => rw [h1] at h; exact absurd h (by simp)
  | spin => rw [h1] at h; exact absurd h (by simp)
  | ok b =>
      cases b with
      | false => rw [h1] at h; exact absurd h (by simp)
      | true =>
          rw [h1] at h
          simp only at h
          cases h2 : validate_elevation_regime_bounds s ael wel with
          | err m => rw [h2] at h; exact absurd h (by simp)
          | spin => rw [h2] at h; exact absurd h (by simp)
          | ok b2 =>
              cases b2 with
              | false => rw [h2] at h; exact absurd h (by simp)
              | true =>
                  rw [h2] at h
                  simp only at h
                  by_cases hst : time_since_last_communication s > DEAD_TIME
                  · rw [if_pos hst] at h; exact absurd h (by simp)
                  · rw [if_neg hst] at h
                    by_cases hsb : s.has_been_set = false
                    · rw [if_pos hsb] at h; exact absurd h (by simp)
                    · refine ⟨?_, not_lt.mp hst, (vab_ok_azimuth h1).1, (vab_ok_azimuth h1).2⟩
                      revert hsb
                      cases s.has_been_set <;> simp

/-- The absolute-elevation fact entailed by a positive move validation in
within-regime form: the offset is set, and the commanded absolute elevation
(offset-corrected, neutral-shifted) is inside [−90, 45]. -/
theorem vmcmd_wre_elevation {s : TTState} {az wre : ℚ}
    (h : validate_move_command s az none (some wre) = .ok true) :
    ∃ off, s.regime_elevation_offset = some off ∧
      -90 ≤ wre + off + s.neutral_elevation ∧ wre + off + s.neutral_elevation ≤ 45 := by
  unfold validate_move_command at h
  cases h1 : validate_absolute_bounds s az (some wre) none with
  | err m => rw [h1] at h; exact absurd h (by simp)
  | spin => rw [h1] at h; exact absurd h (by simp)
  | ok b =>
      cases b with
      | false => rw [h1] at h; exact absurd h (by simp)
      | true =>
          clear h
          unfold validate_absolute_bounds at h1
          rw [show abs_elevation_arg s (some wre) none =
            convert_from_regime_elevation s wre from rfl] at h1
          cases hoff : s.regime_elevation_offset with
          | none =>
              rw [show convert_from_regime_elevation s wre = .err "offset not set" from by
                unfold convert_from_regime_elevation; rw [hoff]] at h1
              exact absurd h1 (by simp)
          | some off =>
              rw [show convert_from_regime_elevation s wre = .ok (wre + off) from by
                unfold convert_from_regime_elevation; rw [hoff]] at h1
              simp only at h1
              refine ⟨off, rfl, ?_⟩
              by_cases haz : az < -180 ∨ 180 < az
              · rw [if_pos haz] at h1; exact absurd h1 (by simp)
              · rw [if_neg haz] at h1
                by_cases hne : s.neutral_elevation = 0
                · rw [if_pos hne] at h1
                  by_cases hel : wre + off < -90 ∨ 45 < wre + off
                  · rw [if_pos hel] at h1; exact absurd h1 (by simp)
                  · push_neg at hel
                    rw [hne]
                    constructor <;> linarith [hel.1, hel.2]
                · rw [if_neg hne] at h1
                  by_cases hel : wre + off + s.neutral_elevation < -90 ∨
                      45 < wre + off + s.neutral_elevation
                  · rw [if_pos hel] at h1; exact absurd h1 (by simp)
                  · push_neg at hel
                    exact ⟨hel.1, hel.2⟩

/-- Single reads preserve `neutral_elevation`. -/
theorem gwrp_neutral (s : TTState) :
    (get_within_regime_position s).2.neutral_elevation = s.neutral_elevation := by
  unfold get_within_regime_position
  cases s.telem with
  | nil => rfl
  | cons r rest => cases r <;> rfl

/-- The raw-position polling loop preserves `neutral_elevation`. -/
theorem wwrp_neutral : ∀ (n : ℕ) (s : TTState),
    (wait_for_within_regime_position n s).2.neutral_elevation = s.neutral_elevation := by
  intro n
  induction n with
  | zero => intro s; rfl
  | succ n ih =>
      intro s
      have h2 : (get_within_regime_position s).2.neutral_elevation = s.neutral_elevation :=
        gwrp_neutral s
      unfold wait_for_within_regime_position
      cases hg : get_within_regime_position s with
      | mk o s2 =>
          rw [hg] at h2
          cases o with
          | some p => exact h2
          | none => exact (ih s2).trans h2

/-- `get_position` preserves `neutral_elevation`. -/
theorem getpos_neutral (s : TTState) :
    (get_position s).2.neutral_elevation = s.neutral_elevation := by
  have h2 : (get_within_regime_position s).2.neutral_elevation = s.neutral_elevation :=
    gwrp_neutral s
  unfold get_position
  cases hg : get_within_regime_position s with
  | mk o s2 =>
      rw [hg] at h2
      cases o with
      | none => exact h2
      | some p =>
          simp only []
          cases s2.current_regime with
          | none => exact h2
          | some r =>
              cases convert_from_regime_elevation s2 p.elevation <;> exact h2

/-- The position polling loop preserves `neutral_elevation`. -/
theorem wfp_neutral : ∀ (n : ℕ) (s : TTState),
    (wait_for_position n s).2.neutral_elevation = s.neutral_elevation := by
  intro n
  induction n with
  | zero => intro s; rfl
  | succ n ih =>
      intro s
      have h2 : (get_position s).2.neutral_elevation = s.neutral_elevation := getpos_neutral s
      unfold wait_for_position
      cases hg : get_position s with
      | mk o s2 =>
          rw [hg] at h2
          cases o with
          | ok op =>
              cases op with
              | some p => exact h2
              | none => exact (ih s2).trans h2
          | err m => exact h2
          | spin => exact h2

/-- `_send_move_command` preserves `neutral_elevation`. -/
theorem smc_neutral (s : TTState) (az el : ℚ) :
    (send_move_command s az el).2.neutral_elevation = s.neutral_elevation := by
  unfold send_move_command
  cases validate_move_command s az none (some el) with
  | err m => rfl
  | spin => rfl
  | ok b => cases b <;> rfl

/-- The SET confirmation loop preserves `neutral_elevation`. -/
theorem sscl_neutral : ∀ (n : ℕ) (az el : ℚ) (sr : Bool) (s : TTState),
    (send_set_command_loop n az el sr s).2.neutral_elevation = s.neutral_elevation := by
  intro n
  induction n with
  | zero => intro az el sr s; rfl
  | succ n ih =>
      intro az el sr s
      have h2 : (get_within_regime_position s).2.neutral_elevation = s.neutral_elevation :=
        gwrp_neutral s
      unfold send_set_command_loop
      cases hg : get_within_regime_position s with
      | mk o s2 =>
          rw [hg] at h2
          cases o with
          | none => exact (ih az el sr s2).trans h2
          | some rep =>
              simp only []
              by_cases hd1 : |rep.azimuth - az| > ALLOWABLE_DISCREPANCY_DEG
              · rw [if_pos hd1]; exact (ih az el sr s2).trans h2
              · rw [if_neg hd1]
                by_cases hd2 : |rep.elevation - el| > ALLOWABLE_DISCREPANCY_DEG
                · rw [if_pos hd2]; exact (ih az el sr s2).trans h2
                · rw [if_neg hd2]
                  cases sr with
                  | true =>
                      simp only [if_true]
                      cases find_best_regime rep.elevation <;> exact h2
                  | false => simp only [Bool.false_eq_true, if_false]; exact h2

/-- `send_set_command` preserves `neutral_elevation`. -/
theorem ssc_neutral (fuel : ℕ) (az el : ℚ) (sr : Bool) (s : TTState) :
    (send_set_command fuel az el sr s).2.neutral_elevation = s.neutral_elevation := by
  unfold send_set_command
  by_cases hv : validate_set_command az el
  · rw [if_pos hv]
    simp only []
    have h2 := sscl_neutral fuel az el sr
      { s with writes := s.writes ++ List.replicate 3 (.set az el) }
    cases hg : send_set_command_loop fuel az el sr
        { s with writes := s.writes ++ List.replicate 3 (.set az el) } with
    | mk o s2 =>
        rw [hg] at h2
        cases o with
        | ok p => exact h2
        | err m => exact h2
        | spin => exact h2
  · rw [if_neg hv]

/-- The arrival polling loop preserves `neutral_elevation`. -/
theorem mtwrl_neutral : ∀ (n : ℕ) (az wre azM elM : ℚ) (s : TTState),
    (move_to_within_regime_loop n az wre azM elM s).2.neutral_elevation =
      s.neutral_elevation := by
  intro n
  induction n with
  | zero => intro az wre azM elM s; rfl
  | succ n ih =>
      intro az wre azM elM s
      have h2 := wwrp_neutral (n + 1) s
      unfold move_to_within_regime_loop
      cases hg : wait_for_within_regime_position (n + 1) s with
      | mk o s2 =>
          rw [hg] at h2
          cases o with
          | err m => exact h2
          | spin => exact h2
          | ok cur =>
              simp only []
              by_cases hm : |cur.azimuth - az| ≤ azM ∧ |cur.elevation - wre| ≤ elM
              · rw [if_pos hm]; exact h2
              · rw [if_neg hm]; exact (ih az wre azM elM s2).trans h2

/-- `_move_to_within_regime` preserves `neutral_elevation`. -/
theorem mtwr_neutral (fuel : ℕ) (az wre azM elM : ℚ) (s : TTState) :
    (move_to_within_regime fuel az wre azM elM s).2.neutral_elevation =
      s.neutral_elevation := by
  unfold move_to_within_regime
  cases validate_move_command s az none (some wre) with
  | err m => rfl
  | spin => rfl
  | ok b =>
      cases b with
      | false => rfl
      | true =>
          have h2 := wfp_neutral fuel s
          cases hg : wait_for_position fuel s with
          | mk o s2 =>
              rw [hg] at h2
              cases o with
              | err m => exact h2
              | spin => exact h2
              | ok p =>
                  have h3 := smc_neutral s2 az wre
                  simp only []
                  cases hs : send_move_command s2 az wre with
                  | mk o2 s3 =>
                      rw [hs] at h3
                      cases o2 with
                      | err m => exact h3.trans h2
                      | spin => exact h3.trans h2
                      | ok u =>
                          exact ((mtwrl_neutral fuel az wre azM elM s3).trans h3).trans h2

/-- `_move_to_next_regime` preserves `neutral_elevation`, given that the
`move_to` it recurses into does. -/
theorem mtnr_neutral_aux (n : ℕ) (az el azM elM : ℚ) (s : TTState)
    (hmv : ∀ (el' : ℚ) (s' : TTState),
      (move_to n az el' azM elM s').2.neutral_elevation = s'.neutral_elevation) :
    (move_to_next_regime n az el azM elM s).2.neutral_elevation =
      s.neutral_elevation := by
  unfold move_to_next_regime
  cases s.current_regime with
  | none => rfl
  | some cur =>
      simp only []
      cases hfn : find_next_regime el cur with
      | none => rfl
      | some next =>
          simp only []
          by_cases ha : cur.is_in_allowable_range next.center_angle = true
          · rw [if_neg (not_not_intro ha)]
            have h1 := hmv next.center_angle s
            cases hm1 : move_to n az next.center_angle azM elM s with
            | mk o s2 =>
                rw [hm1] at h1
                cases o with
                | err m => exact h1
                | spin => exact h1
                | ok u =>
                    simp only []
                    have h2 := wwrp_neutral n s2
                    cases hw : wait_for_within_regime_position n s2 with
                    | mk o2 s3 =>
                        rw [hw] at h2
                        cases o2 with
                        | err m => exact h2.trans h1
                        | spin => exact h2.trans h1
                        | ok wrp =>
                            simp only []
                            cases convert_from_regime_elevation s3 wrp.elevation with
                            | err m => exact h2.trans h1
                            | spin => exact h2.trans h1
                            | ok realEl =>
                                simp only []
                                by_cases hb : cur.is_in_allowable_range realEl = true
                                · rw [if_neg (not_not_intro hb)]
                                  by_cases hc : next.is_in_allowable_range realEl = true
                                  · rw [if_neg (not_not_intro hc)]
                                    cases hro : s3.regime_elevation_offset with
                                    | none =>
                                        simp only []
                                        have h4 := ssc_neutral n az 0 false { s3 with regime_elevation_offset := some wrp.elevation }
                                        cases hs : send_set_command n az 0 false { s3 with regime_elevation_offset := some wrp.elevation } with
                                        | mk o3 s5 =>
                                            rw [hs] at h4
                                            cases o3 with
                                            | err m => exact (h4.trans h2).trans h1
                                            | spin => exact (h4.trans h2).trans h1
                                            | ok u2 => exact (h4.trans h2).trans h1
                                    | some off =>
                                        simp only []
                                        have h4 := ssc_neutral n az 0 false { s3 with regime_elevation_offset := some (off + wrp.elevation) }
                                        cases hs : send_set_command n az 0 false { s3 with regime_elevation_offset := some (off + wrp.elevation) } with
                                        | mk o3 s5 =>
                                            rw [hs] at h4
                                            cases o3 with
                                            | err m => exact (h4.trans h2).trans h1
                                            | spin => exact (h4.trans h2).trans h1
                                            | ok u2 => exact (h4.trans h2).trans h1
                                  · rw [if_pos hc]; exact h2.trans h1
                                · rw [if_pos hb]; exact h2.trans h1
          · rw [if_pos ha]

/-- When the move validation does not come back positive,
`_move_to_within_regime` raises (or propagates) before transmitting anything:
the state, and in particular the transport trace, is untouched. -/
theorem mtwr_not_valid {fuel : ℕ} {az wre azM elM : ℚ} {s : TTState}
    (h : validate_move_command s az none (some wre) ≠ .ok true) :
    (move_to_within_regime fuel az wre azM elM s).1.isOk = false ∧
      (move_to_within_regime fuel az wre azM elM s).2 = s := by
  unfold move_to_within_regime
  cases hv : validate_move_command s az none (some wre) with
  | err m => exact ⟨rfl, rfl⟩
  | spin => exact ⟨rfl, rfl⟩
  | ok b =>
      cases b with
      | false => exact ⟨rfl, rfl⟩
      | true => exact absurd hv h

/-- When every `move_to` at the inner fuel level fails from the entry state
without touching it, so does `_move_to_next_regime`. -/
theorem mtnr_not_ok_aux (n : ℕ) (az el azM elM : ℚ) (s : TTState)
    (hmv : ∀ (el' : ℚ), (move_to n az el' azM elM s).1.isOk = false ∧
      (move_to n az el' azM elM s).2 = s) :
    (move_to_next_regime n az el azM elM s).1.isOk = false ∧
      (move_to_next_regime n az el azM elM s).2 = s := by
  unfold move_to_next_regime
  cases s.current_regime with
  | none => exact ⟨rfl, rfl⟩
  | some cur =>
      simp only []
      cases hfn : find_next_regime el cur with
      | none => exact ⟨rfl, rfl⟩
      | some next =>
          simp only []
          by_cases ha : cur.is_in_allowable_range next.center_angle = true
          · rw [if_neg (not_not_intro ha)]
            have h1 := hmv next.center_angle
            cases hm1 : move_to n az next.center_angle azM elM s with
            | mk o s2 =>
                rw [hm1] at h1
                cases o with
                | ok u => exact absurd h1.1 (by simp [Outcome.isOk])
                | err m => exact ⟨rfl, h1.2⟩
                | spin => exact ⟨rfl, h1.2⟩
          · rw [if_pos ha]
            exact ⟨rfl, rfl⟩

/-- An azimuth outside [−180, 180] makes `move_to` fail at any fuel, from any
state, leaving the state — in particular the transport trace — untouched. -/
theorem move_to_az_oob (az azM elM : ℚ) (haz : az < -180 ∨ 180 < az) :
    ∀ (n : ℕ) (el : ℚ) (s : TTState),
      (move_to n az el azM elM s).1.isOk = false ∧
        (move_to n az el azM elM s).2 = s := by
  intro n
  induction n with
  | zero => intro el s; exact ⟨rfl, rfl⟩
  | succ n ih =>
      intro el s
      rw [move_to_succ]
      cases s.current_regime with
      | none => exact ⟨rfl, rfl⟩
      | some r =>
          simp only []
          by_cases hr : r.is_in_allowable_range el = true
          · rw [if_pos hr]
            cases convert_to_regime_elevation s el with
            | err m => exact ⟨rfl, rfl⟩
            | spin => exact ⟨rfl, rfl⟩
            | ok wre =>
                refine mtwr_not_valid ?_
                intro hv
                rcases vmcmd_ok_flags hv with ⟨_, _, hb1, hb2⟩
                rcases haz with h | h <;> linarith
          · rw [if_neg hr]
            have hm := mtnr_not_ok_aux n az el azM elM s (fun el' => ih el' s)
            cases hmn : move_to_next_regime n az el azM elM s with
            | mk o s2 =>
                rw [hmn] at hm
                cases o with
                | ok u => exact absurd hm.1 (by simp [Outcome.isOk])
                | err m => exact ⟨rfl, hm.2⟩
                | spin => exact ⟨rfl, hm.2⟩

/-- Before the session has been zeroed (`has_been_set = false`), `move_to`
fails at any fuel, from any state, leaving the state — in particular the
transport trace — untouched. -/
theorem move_to_not_set (az azM elM : ℚ) :
    ∀ (n : ℕ) (el : ℚ) (s : TTState), s.has_been_set = false →
      (move_to n az el azM elM s).1.isOk = false ∧
        (move_to n az el azM elM s).2 = s := by
  intro n
  induction n with
  | zero => intro el s _; exact ⟨rfl, rfl⟩
  | succ n ih =>
      intro el s hsb
      rw [move_to_succ]
      cases s.current_regime with
      | none => exact ⟨rfl, rfl⟩
      | some r =>
          simp only []
          by_cases hr : r.is_in_allowable_range el = true
          · rw [if_pos hr]
            cases convert_to_regime_elevation s el with
            | err m => exact ⟨rfl, rfl⟩
            | spin => exact ⟨rfl, rfl⟩
            | ok wre =>
                refine mtwr_not_valid ?_
                intro hv
                have h1 := (vmcmd_ok_flags hv).1
                rw [hsb] at h1
                exact Bool.false_ne_true h1
          · rw [if_neg hr]
            have hm := mtnr_not_ok_aux n az el azM elM s (fun el' => ih el' s hsb)
            cases hmn : move_to_next_regime n az el azM elM s with
            | mk o s2 =>
                rw [hmn] at hm
                cases o with
                | ok u => exact absurd hm.1 (by simp [Outcome.isOk])
                | err m => exact ⟨rfl, hm.2⟩
                | spin => exact ⟨rfl, hm.2⟩

/-- `move_to` preserves `neutral_elevation`. -/
theorem move_to_neutral : ∀ (n : ℕ) (az el azM elM : ℚ) (s : TTState),
    (move_to n az el azM elM s).2.neutral_elevation = s.neutral_elevation := by
  intro n
  induction n with
  | zero => intro az el azM elM s; rfl
  | succ n ih =>
      intro az el azM elM s
      rw [move_to_succ]
      cases s.current_regime with
      | none => rfl
      | some r =>
          simp only []
          by_cases hr : r.is_in_allowable_range el = true
          · rw [if_pos hr]
            cases convert_to_regime_elevation s el with
            | err m => rfl
            | spin => rfl
            | ok wre => exact mtwr_neutral (n + 1) az wre azM elM s
          · rw [if_neg hr]
            have hm := mtnr_neutral_aux n az el azM elM s
              (fun el' s' => ih az el' azM elM s')
            cases hmn : move_to_next_regime n az el azM elM s with
            | mk o s2 =>
                rw [hmn] at hm
                cases o with
                | ok u => exact (ih az el azM elM s2).trans hm
                | err m => exact hm
                | spin => exact hm

/-- `_move_to_next_regime` preserves `neutral_elevation`. -/
theorem mtnr_neutral (n : ℕ) (az el azM elM : ℚ) (s : TTState) :
    (move_to_next_regime n az el azM elM s).2.neutral_elevation =
      s.neutral_elevation :=
  mtnr_neutral_aux n az el azM elM s (fun el' s' => move_to_neutral n az el' azM elM s')

/-- A destination whose absolute elevation (after the neutral shift) is
outside [−90, 45] is never accepted by `move_to`: every run fails, at any
fuel, from any state.  (Unlike the azimuth case, frames may be written before
the failure: the regime-crossing waypoint moves are themselves valid.) -/
theorem move_to_el_oob (az azM elM : ℚ) :
    ∀ (n : ℕ) (el : ℚ) (s : TTState),
      el + s.neutral_elevation < -90 ∨ 45 < el + s.neutral_elevation →
      (move_to n az el azM elM s).1.isOk = false := by
  intro n
  induction n with
  | zero => intro el s _; rfl
  | succ n ih =>
      intro el s hel
      rw [move_to_succ]
      cases s.current_regime with
      | none => rfl
      | some r =>
          simp only []
          by_cases hr : r.is_in_allowable_range el = true
          · rw [if_pos hr]
            cases hoff : s.regime_elevation_offset with
            | none =>
                rw [show convert_to_regime_elevation s el = .err "offset not set" from by
                  unfold convert_to_regime_elevation; rw [hoff]]
                rfl
            | some off =>
                rw [show convert_to_regime_elevation s el = .ok (el - off) from by
                  unfold convert_to_regime_elevation; rw [hoff]]
                refine (mtwr_not_valid ?_).1
                intro hv
                obtain ⟨off2, hoff2, hb1, hb2⟩ := vmcmd_wre_elevation hv
                rw [hoff] at hoff2
                injection hoff2 with h2
                rw [← h2] at hb1 hb2
                rcases hel with h | h <;> linarith
          · rw [if_neg hr]
            cases hmn : move_to_next_regime n az el azM elM s with
            | mk o s2 =>
                cases o with
                | err m => rfl
                | spin => rfl
                | ok u =>
                    have hne : s2.neutral_elevation = s.neutral_elevation := by
                      have h0 := mtnr_neutral n az el azM elM s
                      rw [hmn] at h0
                      exact h0
                    exact ih el s2 (by rw [hne]; exact hel)

/-- Claim C1 (amended): `move_to` rejects — returns abnormally — every move
whose azimuth lies outside [−180, 180], every move issued before the session
has been zeroed, and every move whose absolute (neutral-shifted) elevation
lies outside [−90, 45].  In the first two cases nothing is written to the
transport (the state is untouched); in the elevation case the run is still
never accepted, but the regime-crossing waypoint procedure may write MOVE and
SET frames before the rejection, so "nothing sent to hardware" does not hold
there. -/
theorem move_to_rejects :
    (∀ (n : ℕ) (az el azM elM : ℚ) (s : TTState), az < -180 ∨ 180 < az →
        (move_to n az el azM elM s).1.isOk = false ∧
          (move_to n az el azM elM s).2 = s) ∧
    (∀ (n : ℕ) (az el azM elM : ℚ) (s : TTState), s.has_been_set = false →
        (move_to n az el azM elM s).1.isOk = false ∧
          (move_to n az el azM elM s).2 = s) ∧
    (∀ (n : ℕ) (az el azM elM : ℚ) (s : TTState),
        el + s.neutral_elevation < -90 ∨ 45 < el + s.neutral_elevation →
        (move_to n az el azM elM s).1.isOk = false) :=
  ⟨fun n az el azM elM s haz => move_to_az_oob az azM elM haz n el s,
   fun n az el azM elM s hsb => move_to_not_set az azM elM n el s hsb,
   fun n az el azM elM s hel => move_to_el_oob az azM elM n el s hel⟩

/-- A zeroed session state sitting in the regime centered at 0°, with
telemetry primed for one waypoint hop. -/
def c1s : TTState :=
  ⟨true, some R3, some 0, 0, 0, 0,
   [some ⟨0, 25⟩, some ⟨0, 25⟩, some ⟨0, 25⟩, some ⟨0, 0⟩], []⟩

theorem move_to_rejects_wit :
    ((move_to 5 200 0 (11/100) (11/100) c1s).1.isOk = false ∧
      (move_to 5 200 0 (11/100) (11/100) c1s).2 = c1s) ∧
    ((move_to 5 0 0 (11/100) (11/100) { c1s with has_been_set := false }).1.isOk
        = false ∧
      (move_to 5 0 0 (11/100) (11/100) { c1s with has_been_set := false }).2
        = { c1s with has_been_set := false }) ∧
    (move_to 20 0 50 (11/100) (11/100) c1s).1.isOk = false :=
  ⟨move_to_rejects.1 5 200 0 (11/100) (11/100) c1s
      (Or.inr (by with_unfolding_all decide)),
   move_to_rejects.2.1 5 0 0 (11/100) (11/100) { c1s with has_been_set := false }
      rfl,
   move_to_rejects.2.2 20 0 50 (11/100) (11/100) c1s
      (Or.inr (by with_unfolding_all decide))⟩

/-- Refuting the "nothing sent to hardware, from any session state" part of
claim C1 for the elevation case: from a zeroed session in the regime centered
at 0°, commanding absolute elevation 50° is ultimately rejected, yet the
waypoint hop writes frames (three MOVE and three SET) to the transport
first. -/
theorem move_to_writes_cex :
    (move_to 20 0 50 (11/100) (11/100) c1s).1.isOk = false ∧
    (move_to 20 0 50 (11/100) (11/100) c1s).2.writes ≠ [] := by
  with_unfolding_all decide

/-- Claim C3 (amended): on a stale session (more than `DEAD_TIME` seconds
since the last parsed frame) the move validation never comes back positive,
and `_validate_open_communication` fails and resets `has_been_set` and the
current regime.  `validate_move_command` itself resets nothing, and nothing
on the move path calls `_validate_open_communication`, so a rejected stale
move leaves the session flags standing (see `stale_session_cex`). -/
theorem stale_validation (s : TTState)
    (h : time_since_last_communication s > DEAD_TIME) :
    (∀ (az : ℚ) (ael wel : Option ℚ),
        validate_move_command s az ael wel ≠ .ok true) ∧
    validate_open_communication s =
      (false, { s with has_been_set := false, current_regime := none }) := by
  constructor
  · intro az ael wel hv
    have h2 : time_since_last_communication s ≤ DEAD_TIME := (vmcmd_ok_flags hv).2.1
    linarith
  · unfold validate_open_communication
    rw [if_pos h]

/-- A zeroed session gone stale: the clock is 2000 s past the last parsed
frame. -/
def c3s : TTState := ⟨true, some R3, some 0, 0, 0, 2000, [], []⟩

theorem stale_validation_wit :
    validate_move_command c3s 0 none (some 0) ≠ .ok true ∧
    validate_open_communication c3s =
      (false, { c3s with has_been_set := false, current_regime := none }) :=
  ⟨(stale_validation c3s (by with_unfolding_all decide)).1 0 none (some 0),
   (stale_validation c3s (by with_unfolding_all decide)).2⟩

/-- Refuting the "controller invalidates the session" part of claim C3: a
move from a stale session is rejected, but `has_been_set` stays `true` and
the current regime stays set — no re-zeroing is forced by the move path. -/
theorem stale_session_cex :
    time_since_last_communication c3s > DEAD_TIME ∧
    (move_to 5 0 0 (11/100) (11/100) c3s).1.isOk = false ∧
    (move_to 5 0 0 (11/100) (11/100) c3s).2.has_been_set = true ∧
    (move_to 5 0 0 (11/100) (11/100) c3s).2.current_regime = some R3 := by
  with_unfolding_all decide

/-- An angle within 0.11° of zero always selects the regime centered at 0°:
its distance to 0 beats the distance to every other catalog center. -/
theorem find_best_small {x : ℚ} (h : |x| ≤ 11 / 100) :
    find_best_regime x = some R3 := by
  have hx1 := (abs_le.mp h).1
  have hx2 := (abs_le.mp h).2
  have e1 : |x - R1.center_angle| < |x - R0.center_angle| := by
    rw [show R1.center_angle = -50 from rfl, show R0.center_angle = -75 from rfl,
      abs_of_nonneg (by linarith), abs_of_nonneg (by linarith)]
    linarith
  have e2 : |x - R2.center_angle| < |x - R1.center_angle| := by
    rw [show R2.center_angle = -25 from rfl, show R1.center_angle = -50 from rfl,
      abs_of_nonneg (by linarith), abs_of_nonneg (by linarith)]
    linarith
  have e3 : |x - R3.center_angle| < |x - R2.center_angle| := by
    rw [show R3.center_angle = 0 from rfl, show R2.center_angle = -25 from rfl,
      sub_zero, abs_of_nonneg (by linarith : (0 : ℚ) ≤ x - -25)]
    calc |x| ≤ 11 / 100 := h
    _ < x - -25 := by linarith
  have e4 : ¬ |x - R4.center_angle| < |x - R3.center_angle| := by
    rw [show R4.center_angle = 25 from rfl, show R3.center_angle = 0 from rfl,
      sub_zero, abs_of_nonpos (by linarith : x - 25 ≤ 0)]
    exact not_lt.mpr (by calc |x| ≤ 11 / 100 := h
      _ ≤ -(x - 25) := by linarith)
  have e5 : ¬ |x - R5.center_angle| < |x - R3.center_angle| := by
    rw [show R5.center_angle = 50 from rfl, show R3.center_angle = 0 from rfl,
      sub_zero, abs_of_nonpos (by linarith : x - 50 ≤ 0)]
    exact not_lt.mpr (by calc |x| ≤ 11 / 100 := h
      _ ≤ -(x - 50) := by linarith)
  have e6 : ¬ |x - R6.center_angle| < |x - R3.center_angle| := by
    rw [show R6.center_angle = 75 from rfl, show R3.center_angle = 0 from rfl,
      sub_zero, abs_of_nonpos (by linarith : x - 75 ≤ 0)]
    exact not_lt.mpr (by calc |x| ≤ 11 / 100 := h
      _ ≤ -(x - 75) := by linarith)
  have hfold : pyMinBy (fun regime => |x - regime.center_angle|) elevation_regimes
      = some R3 := by
    rw [catalog_eq]
    simp only [pyMinBy, List.foldl_cons, List.foldl_nil]
    rw [if_pos e1, if_pos e2, if_pos e3, if_neg e4, if_neg e5, if_neg e6]
  have hin : R3.is_in_allowable_range x = true :=
    in_range' (by show (0 : ℚ) - 29 ≤ x; linarith) (by show x ≤ (0 : ℚ) + 29; linarith)
  unfold find_best_regime
  rw [hfold]
  simp only []
  rw [if_pos hin]

/-- A positive exit of the SET confirmation loop (with regime recomputation
on) marks the session zeroed and stores the regime best fitting a reported
elevation that was confirmed within `ALLOWABLE_DISCREPANCY_DEG` of the
commanded one. -/
theorem sscl_ok_true : ∀ (n : ℕ) (az el : ℚ) (s : TTState) (p : AzEl)
    (s' : TTState), send_set_command_loop n az el true s = (.ok p, s') →
    s'.has_been_set = true ∧
      ∃ e, |e - el| ≤ ALLOWABLE_DISCREPANCY_DEG ∧
        find_best_regime e = s'.current_regime := by
  intro n
  induction n with
  | zero =>
      intro az el s p s' h
      exact absurd h (by simp [send_set_command_loop])
  | succ n ih =>
      intro az el s p s' h
      unfold send_set_command_loop at h
      cases hg : get_within_regime_position s with
      | mk o s2 =>
          rw [hg] at h
          cases o with
          | none => exact ih az el s2 p s' h
          | some rep =>
              simp only [] at h
              by_cases hd1 : |rep.azimuth - az| > ALLOWABLE_DISCREPANCY_DEG
              · rw [if_pos hd1] at h; exact ih az el s2 p s' h
              · rw [if_neg hd1] at h
                by_cases hd2 : |rep.elevation - el| > ALLOWABLE_DISCREPANCY_DEG
                · rw [if_pos hd2] at h; exact ih az el s2 p s' h
                · rw [if_neg hd2] at h
                  simp only [if_true] at h
                  cases hfb : find_best_regime rep.elevation with
                  | none =>
                      rw [hfb] at h
                      exact absurd h (by simp)
                  | some r =>
                      rw [hfb] at h
                      simp only [] at h
                      injection h with h1 h2
                      refine ⟨?_, rep.elevation, not_lt.mp hd2, ?_⟩
                      · rw [← h2]
                      · rw [hfb, ← h2]

/-- Claim C5: `send_set_command` accepts only `(0, 0)` — any other argument
pair returns `None` with the state (and the transport trace) untouched — and
a confirmed `send_set_command(0, 0)` leaves `has_been_set` true with the
current regime equal to the catalog entry centered at 0°. -/
theorem send_set_command_spec :
    (∀ (fuel : ℕ) (az el : ℚ) (sr : Bool) (s : TTState), ¬(az = 0 ∧ el = 0) →
        send_set_command fuel az el sr s = (.ok none, s)) ∧
    (∀ (fuel : ℕ) (s : TTState) (p : AzEl),
        (send_set_command fuel 0 0 true s).1 = .ok (some p) →
        (send_set_command fuel 0 0 true s).2.has_been_set = true ∧
        (send_set_command fuel 0 0 true s).2.current_regime = some R3) := by
  constructor
  · intro fuel az el sr s hne
    unfold send_set_command
    rw [if_neg (by simp only [validate_set_command, decide_eq_true_eq]; exact hne)]
  · intro fuel s p hp
    unfold send_set_command at hp ⊢
    rw [if_pos (by with_unfolding_all decide : validate_set_command 0 0 = true)]
      at hp ⊢
    simp only [] at hp ⊢
    cases hL : send_set_command_loop fuel 0 0 true
        { s with writes := s.writes ++ List.replicate 3 (.set 0 0) } with
    | mk o s2 =>
        rw [hL] at hp
        cases o with
        | err m => exact absurd hp (by simp)
        | spin => exact absurd hp (by simp)
        | ok q =>
            obtain ⟨hset, e, he, hfb⟩ := sscl_ok_true fuel 0 0 _ q s2 hL
            have hR3 : find_best_regime e = some R3 :=
              find_best_small (by rw [sub_zero] at he; exact he)
            rw [hR3] at hfb
            exact ⟨hset, hfb.symm⟩

/-- A cold session whose next telemetry read reports (0, 0.01), within the
confirmation tolerance of (0, 0). -/
def c5s : TTState := ⟨false, none, none, 0, 0, 0, [some ⟨0, 1 / 100⟩], []⟩

set_option maxRecDepth 10000 in
theorem send_set_command_spec_wit :
    send_set_command 5 1 0 true c5s = (.ok none, c5s) ∧
    ((send_set_command 5 0 0 true c5s).2.has_been_set = true ∧
      (send_set_command 5 0 0 true c5s).2.current_regime = some R3) :=
  ⟨send_set_command_spec.1 5 1 0 true c5s (by with_unfolding_all decide),
   send_set_command_spec.2 5 c5s ⟨0, 0⟩ (by with_unfolding_all decide)⟩

end Anechoic
